import Mathlib

/-!
# Verification of the `trusty` tool-calling orchestrator

A shallow embedding of `examples/trusty/main.go`: a single-session
orchestrator that lets an Ollama chat backend invoke the external
`trustyReport` lookup tool and summarize its result.

The embedding models:

* JSON values (`JValue`), a printer mirroring `json.MarshalIndent` with
  two-space indentation and sorted object keys, and a checker/decoder
  mirroring `json.Unmarshal` into `map[string]interface{}` (object keys
  deduplicated, last occurrence winning, order forgotten).  Numbers are
  modelled as integers: the orchestrator never computes with payload
  numbers, so the float representation is irrelevant to every property
  proved here.
* the `trustyReport` HTTP fetch, `responseAsMap`, `chatTrustyReport`
  and `main`, as pure functions over an `Env` describing the external
  collaborators (chat backend replies, HTTP transport outcomes, call
  durations), returning an `Outcome` plus the trace of observable
  events (chat turns, lookup invocations, HTTP requests, stdout).

`log.Fatalf` terminates the Go process; it is modelled by the `fatal`
outcome, which records which failure aborted the run.  `log.*` writes to
stderr, so only `fmt.Print*` output appears as `stdout` events.
-/

/-! ## JSON values

Mutual inductives instead of a nested `List` keep all recursions and
inductions structural. -/

mutual

inductive JValue : Type where
  | jnull : JValue
  | jbool : Bool → JValue
  | jnum : Int → JValue
  | jstr : String → JValue
  | jarr : JArr → JValue
  | jobj : JObj → JValue

inductive JArr : Type where
  | nil : JArr
  | cons : JValue → JArr → JArr

inductive JObj : Type where
  | nil : JObj
  | cons : String → JValue → JObj → JObj

end

deriving instance DecidableEq for JValue
deriving instance DecidableEq for JArr
deriving instance DecidableEq for JObj

def JObj.ofList : List (String × JValue) → JObj
  | [] => .nil
  | (k, v) :: tl => .cons k v (JObj.ofList tl)

def JArr.ofList : List JValue → JArr
  | [] => .nil
  | v :: tl => .cons v (JArr.ofList tl)

/-! ## Byte order on strings

`json.MarshalIndent` sorts object keys with `sort.Strings`, i.e. by
byte order, which on valid UTF-8 agrees with code-point order.  A
self-contained boolean comparison keeps everything kernel-computable. -/

def charsLt : List Char → List Char → Bool
  | [], [] => false
  | [], _ :: _ => true
  | _ :: _, [] => false
  | c :: cs, d :: ds =>
    if c.toNat < d.toNat then true
    else if d.toNat < c.toNat then false
    else charsLt cs ds

def strLt (a b : String) : Bool := charsLt a.data b.data

theorem charsLt_irrefl : ∀ l : List Char, charsLt l l = false
  | [] => rfl
  | c :: cs => by simp [charsLt, charsLt_irrefl cs]

theorem charsLt_trans : ∀ a b c : List Char,
    charsLt a b = true → charsLt b c = true → charsLt a c = true
  | [], _ :: _, _ :: _, _, _ => rfl
  | x :: xs, y :: ys, z :: zs, h1, h2 => by
    simp only [charsLt] at h1 h2 ⊢
    by_cases hxy : x.toNat < y.toNat <;> by_cases hyz : y.toNat < z.toNat
    · simp [show x.toNat < z.toNat from by omega]
    · simp only [if_pos hxy] at h1
      by_cases hzy : z.toNat < y.toNat
      · simp [hyz, hzy] at h2
      · have : y.toNat = z.toNat := by omega
        simp [show x.toNat < z.toNat from by omega]
    · simp only [if_neg hxy] at h1
      by_cases hyx : y.toNat < x.toNat
      · simp [hyx] at h1
      · have : x.toNat = y.toNat := by omega
        simp [show x.toNat < z.toNat from by omega]
    · simp only [if_neg hxy] at h1
      simp only [if_neg hyz] at h2
      by_cases hyx : y.toNat < x.toNat
      · simp [hyx] at h1
      · by_cases hzy : z.toNat < y.toNat
        · simp [hzy] at h2
        · have hxz : ¬ x.toNat < z.toNat := by omega
          have hzx : ¬ z.toNat < x.toNat := by omega
          simp only [if_neg hxz, if_neg hzx]
          exact charsLt_trans xs ys zs (by simpa [hyx] using h1) (by simpa [hzy] using h2)

theorem charsLt_total_of_ne : ∀ a b : List Char,
    a ≠ b → charsLt a b = false → charsLt b a = true
  | [], [], h, _ => absurd rfl h
  | [], _ :: _, _, h2 => by simp [charsLt] at h2
  | _ :: _, [], _, _ => rfl
  | x :: xs, y :: ys, h, h2 => by
    simp only [charsLt] at h2 ⊢
    by_cases hxy : x.toNat < y.toNat
    · simp [hxy] at h2
    · by_cases hyx : y.toNat < x.toNat
      · simp [hyx]
      · have hx : x.toNat = y.toNat := by omega
        have hc : x = y := by
          refine Char.eq_of_val_eq (UInt32.eq_of_toBitVec_eq ?_)
          refine BitVec.eq_of_toNat_eq ?_
          simpa [Char.toNat, UInt32.toNat] using hx
        subst hc
        simp only [if_neg hxy, if_neg hyx] at h2 ⊢
        exact charsLt_total_of_ne xs ys (by simpa using h) h2

theorem strLt_irrefl (a : String) : strLt a a = false := charsLt_irrefl a.data

theorem strLt_trans {a b c : String} (h1 : strLt a b = true) (h2 : strLt b c = true) :
    strLt a c = true := charsLt_trans a.data b.data c.data h1 h2

theorem strLt_total_of_ne {a b : String} (h : a ≠ b) (h2 : strLt a b = false) :
    strLt b a = true := by
  refine charsLt_total_of_ne a.data b.data (fun hd => h ?_) h2
  cases a; cases b; simp_all

theorem strLt_asymm {a b : String} (h : strLt a b = true) : strLt b a = false := by
  by_contra hc
  have := strLt_trans h (by simpa using Bool.of_not_eq_false hc)
  simp [strLt_irrefl] at this

/-! ## Canonical objects

`json.Unmarshal` into `map[string]interface{}` forgets member order and
deduplicates keys (the last occurrence wins); `json.MarshalIndent` then
emits keys in ascending byte order.  A decoded object is therefore a
key-sorted, duplicate-free field list; `objInsert`/`canonFields` model
the map built by inserting members in textual order. -/

def allKeysGt (k : String) : JObj → Bool
  | .nil => true
  | .cons k2 _ tl => strLt k k2 && allKeysGt k tl

def objSorted : JObj → Bool
  | .nil => true
  | .cons k _ tl => allKeysGt k tl && objSorted tl

def objInsert (k : String) (v : JValue) : JObj → JObj
  | .nil => .cons k v .nil
  | .cons k2 v2 tl =>
    if k = k2 then .cons k v tl
    else if strLt k k2 then .cons k v (.cons k2 v2 tl)
    else .cons k2 v2 (objInsert k v tl)

def canonAux : JObj → JObj → JObj
  | acc, .nil => acc
  | acc, .cons k v tl => canonAux (objInsert k v acc) tl

def canonFields (o : JObj) : JObj := canonAux .nil o

mutual

def canonV : JValue → Bool
  | .jnull => true
  | .jbool _ => true
  | .jnum _ => true
  | .jstr _ => true
  | .jarr a => canonA a
  | .jobj o => objSorted o && canonO o

def canonA : JArr → Bool
  | .nil => true
  | .cons v tl => canonV v && canonA tl

def canonO : JObj → Bool
  | .nil => true
  | .cons _ v tl => canonV v && canonO tl

end

/-! ## The printer: `json.MarshalIndent(v, "", "  ")` -/

def hexDigitChar (n : Nat) : Char :=
  if n < 10 then Char.ofNat (48 + n) else Char.ofNat (87 + n)

def escapeChar (c : Char) : List Char :=
  if c = '\"' then ['\\', '\"']
  else if c = '\\' then ['\\', '\\']
  else if c = '\n' then ['\\', 'n']
  else if c = '\r' then ['\\', 'r']
  else if c = '\t' then ['\\', 't']
  else if c.toNat < 32 then
    ['\\', 'u', '0', '0', hexDigitChar (c.toNat / 16), hexDigitChar (c.toNat % 16)]
  else [c]

def escapeChars : List Char → List Char
  | [] => []
  | c :: cs => escapeChar c ++ escapeChars cs

def quoteChars (s : String) : List Char := '\"' :: (escapeChars s.data ++ ['\"'])

def digitChar (d : Nat) : Char := Char.ofNat (48 + d)

def natCharsAux : Nat → Nat → List Char → List Char
  | 0, _, acc => acc
  | fuel + 1, n, acc =>
    if n < 10 then digitChar n :: acc
    else natCharsAux fuel (n / 10) (digitChar (n % 10) :: acc)

def natChars (n : Nat) : List Char := natCharsAux (n + 1) n []

def intChars : Int → List Char
  | .ofNat n => natChars n
  | .negSucc m => '-' :: natChars (m + 1)

def nlIndent (n : Nat) : List Char := '\n' :: List.replicate n ' '

mutual

def printVal (ind : Nat) : JValue → List Char
  | .jnull => ['n', 'u', 'l', 'l']
  | .jbool true => ['t', 'r', 'u', 'e']
  | .jbool false => ['f', 'a', 'l', 's', 'e']
  | .jnum n => intChars n
  | .jstr s => quoteChars s
  | .jarr .nil => ['[', ']']
  | .jarr (.cons v tl) =>
    '[' :: (nlIndent (ind + 2) ++ (printVal (ind + 2) v ++
      (printArrTail (ind + 2) tl ++ (nlIndent ind ++ [']']))))
  | .jobj .nil => ['\x7b', '\x7d']
  | .jobj (.cons k v tl) =>
    '\x7b' :: (nlIndent (ind + 2) ++ (quoteChars k ++ (':' :: ' ' ::
      (printVal (ind + 2) v ++ (printObjTail (ind + 2) tl ++ (nlIndent ind ++ ['\x7d']))))))

def printArrTail (ind : Nat) : JArr → List Char
  | .nil => []
  | .cons v tl => ',' :: (nlIndent ind ++ (printVal ind v ++ printArrTail ind tl))

def printObjTail (ind : Nat) : JObj → List Char
  | .nil => []
  | .cons k v tl =>
    ',' :: (nlIndent ind ++ (quoteChars k ++ (':' :: ' ' ::
      (printVal ind v ++ printObjTail ind tl))))

end

def marshalIndent (v : JValue) : String := String.mk (printVal 0 v)

/-! ## The checker/decoder: `json.Unmarshal` -/

def isWsChar (c : Char) : Bool := c = ' ' || c = '\n' || c = '\t' || c = '\r'

def skipWs : List Char → List Char
  | [] => []
  | c :: cs => if isWsChar c then skipWs cs else c :: cs

def isDigitChar (c : Char) : Bool := 48 ≤ c.toNat && c.toNat ≤ 57

def hexVal (c : Char) : Option Nat :=
  if 48 ≤ c.toNat && c.toNat ≤ 57 then some (c.toNat - 48)
  else if 97 ≤ c.toNat && c.toNat ≤ 102 then some (c.toNat - 87)
  else if 65 ≤ c.toNat && c.toNat ≤ 70 then some (c.toNat - 55)
  else none

def unescapeChar (c : Char) : Option Char :=
  if c = '\"' then some '\"'
  else if c = '\\' then some '\\'
  else if c = '/' then some '/'
  else if c = 'n' then some '\n'
  else if c = 't' then some '\t'
  else if c = 'r' then some '\r'
  else if c = 'b' then some (Char.ofNat 8)
  else if c = 'f' then some (Char.ofNat 12)
  else none

def readStr : List Char → Option (List Char × List Char)
  | [] => none
  | c :: cs =>
    if c = '\"' then some ([], cs)
    else if c = '\\' then
      match cs with
      | [] => none
      | e :: cs2 =>
        if e = 'u' then
          match cs2 with
          | a :: b :: x :: d :: cs3 =>
            match hexVal a, hexVal b, hexVal x, hexVal d with
            | some va, some vb, some vx, some vd =>
              match readStr cs3 with
              | some (tl, rest) =>
                some (Char.ofNat (((va * 16 + vb) * 16 + vx) * 16 + vd) :: tl, rest)
              | none => none
            | _, _, _, _ => none
          | _ => none
        else
          match unescapeChar e with
          | some ch =>
            match readStr cs2 with
            | some (tl, rest) => some (ch :: tl, rest)
            | none => none
          | none => none
    else
      match readStr cs with
      | some (tl, rest) => some (c :: tl, rest)
      | none => none

def readDigits (acc : Nat) : List Char → Nat × List Char
  | [] => (acc, [])
  | c :: cs => if isDigitChar c then readDigits (10 * acc + (c.toNat - 48)) cs else (acc, c :: cs)

mutual

def parseVal : Nat → List Char → Option (JValue × List Char)
  | 0, _ => none
  | fuel + 1, input =>
    match skipWs input with
    | [] => none
    | c :: cs =>
      if c = 'n' then
        match cs with
        | 'u' :: 'l' :: 'l' :: rest => some (.jnull, rest)
        | _ => none
      else if c = 't' then
        match cs with
        | 'r' :: 'u' :: 'e' :: rest => some (.jbool true, rest)
        | _ => none
      else if c = 'f' then
        match cs with
        | 'a' :: 'l' :: 's' :: 'e' :: rest => some (.jbool false, rest)
        | _ => none
      else if c = '\"' then
        match readStr cs with
        | some (content, rest) => some (.jstr (String.mk content), rest)
        | none => none
      else if c = '-' then
        match cs with
        | d :: ds =>
          if isDigitChar d then
            let p := readDigits 0 (d :: ds)
            some (.jnum (-(p.1 : Int)), p.2)
          else none
        | [] => none
      else if isDigitChar c then
        let p := readDigits 0 (c :: cs)
        some (.jnum (p.1 : Int), p.2)
      else if c = '[' then
        match skipWs cs with
        | [] => none
        | c2 :: cs2 =>
          if c2 = ']' then some (.jarr .nil, cs2)
          else
            match parseVal fuel (c2 :: cs2) with
            | some (v, r1) =>
              match parseArrTail fuel r1 with
              | some (tl, r2) => some (.jarr (.cons v tl), r2)
              | none => none
            | none => none
      else if c = '\x7b' then
        match skipWs cs with
        | [] => none
        | c2 :: cs2 =>
          if c2 = '\x7d' then some (.jobj .nil, cs2)
          else if c2 = '\"' then
            match readStr cs2 with
            | some (kchars, r1) =>
              match skipWs r1 with
              | [] => none
              | c3 :: r2 =>
                if c3 = ':' then
                  match parseVal fuel r2 with
                  | some (v, r3) =>
                    match parseObjTail fuel r3 with
                    | some (tl, r4) =>
                      some (.jobj (canonFields (.cons (String.mk kchars) v tl)), r4)
                    | none => none
                  | none => none
                else none
            | none => none
          else none
      else none

def parseArrTail : Nat → List Char → Option (JArr × List Char)
  | 0, _ => none
  | fuel + 1, input =>
    match skipWs input with
    | [] => none
    | c :: cs =>
      if c = ',' then
        match parseVal fuel cs with
        | some (v, r1) =>
          match parseArrTail fuel r1 with
          | some (tl, r2) => some (.cons v tl, r2)
          | none => none
        | none => none
      else if c = ']' then some (.nil, cs)
      else none

def parseObjTail : Nat → List Char → Option (JObj × List Char)
  | 0, _ => none
  | fuel + 1, input =>
    match skipWs input with
    | [] => none
    | c :: cs =>
      if c = ',' then
        match skipWs cs with
        | [] => none
        | c2 :: cs2 =>
          if c2 = '\"' then
            match readStr cs2 with
            | some (kchars, r1) =>
              match skipWs r1 with
              | [] => none
              | c3 :: r2 =>
                if c3 = ':' then
                  match parseVal fuel r2 with
                  | some (v, r3) =>
                    match parseObjTail fuel r3 with
                    | some (tl, r4) => some (.cons (String.mk kchars) v tl, r4)
                    | none => none
                  | none => none
                else none
            | none => none
          else none
      else if c = '\x7d' then some (.nil, cs)
      else none

end

def parseJSON (s : String) : Option JValue :=
  match parseVal (s.data.length + 1) s.data with
  | some (v, rest) => if (skipWs rest).isEmpty then some v else none
  | none => none

def unmarshalMap (s : String) : Option JObj :=
  match parseJSON s with
  | some (.jobj o) => some o
  | _ => none

/-! ## Backend data types

Modelled from the spec: the chat backend
(`gollm/pkg/backend`, not part of the example's source) exposes
`Chat(context, messages, tools) -> (response, error)`, where a reply is
a role-tagged message carrying content plus zero or more tool calls,
each naming a function with a string-keyed argument mapping. -/

structure OllamaFunctionCall where
  name : String
  arguments : List (String × JValue)
deriving DecidableEq

structure OllamaToolCall where
  function : OllamaFunctionCall
deriving DecidableEq

structure OllamaResponseMessage where
  role : String
  content : String
  toolCalls : List OllamaToolCall
deriving DecidableEq

structure OllamaChatResponse where
  message : OllamaResponseMessage
deriving DecidableEq

/-! ## Errors, outcomes and observable events -/

/-- Go `error` values the program can meet: `context.DeadlineExceeded`
(compared by identity at every chat call site), transport/read errors
from the lookup, `json.Unmarshal` failures, and other backend errors. -/
inductive GoErr : Type where
  | deadlineExceeded
  | transport (cause : String)
  | readBody (cause : String)
  | badJSON (body : String)
  | newRequest (cause : String)
  | chat (cause : String)
deriving DecidableEq

/-- Which `log.Fatal*` call terminated the process.  The spec's error
taxonomy maps onto these: `ArgumentError` = `argPackageName`/`argEcosystem`,
`LookupError` = `lookupFailed`, `TimeoutError` = `timeout`,
`UnexpectedToolError` = `unexpectedFunction`, `BackendError` = `backend`. -/
inductive Fatal : Type where
  | argPackageName
  | argEcosystem
  | lookupFailed (e : GoErr)
  | timeout
  | backend (e : GoErr)
  | unexpectedFunction (name : String)
deriving DecidableEq

/-- How a run of `main` ends: a direct answer without tool use, a
post-summary success, or a fatal (non-zero exit) error. -/
inductive Outcome : Type where
  | directAnswer (content : String)
  | success (content : String)
  | fatal (f : Fatal)
deriving DecidableEq

/-- A conversation message as sent to the backend: a `map[string]any`
(or Go's `nil` map, which `responseAsMap` can produce). -/
abbrev CtxMsg := Option JObj

/-- Externally observable events, in order: chat turns issued to the
backend (with the message context and the tools offered), invocations
of the lookup capability, outbound HTTP requests, and stdout writes
(`log.*` goes to stderr and is not recorded). -/
inductive Event : Type where
  | chatCall (messages : List CtxMsg) (tools : Option (List JValue))
  | lookup (packageName ecosystem : String)
  | httpDo (url : String)
  | stdout (text : String)
deriving DecidableEq

deriving instance DecidableEq for Except

structure HttpResp where
  statusCode : Nat
  bodyResult : Except GoErr String
deriving DecidableEq

/-- The external world of one run: the backend's reply to each of the
three possible chat turns, the HTTP layer's behaviour for the single
lookup, `json.Marshal`'s outcome inside `responseAsMap`, and the wall
durations (in seconds) of the lookup and of each chat call, measured
against the 30-second `context.WithTimeout` scopes. -/
structure Env where
  turn1 : Except GoErr OllamaChatResponse
  turn2 : Except GoErr OllamaChatResponse
  turn3 : Except GoErr OllamaChatResponse
  newRequestErr : Option GoErr
  doResult : Except GoErr HttpResp
  marshalMsg : OllamaResponseMessage → Option String
  d1 : Nat
  dLookup : Nat
  d2 : Nat
  d3 : Nat

/-- A chat call observed against its cancellation scope: if the scope's
remaining budget is exhausted the call fails with
`context.DeadlineExceeded`, otherwise the backend's reply stands. -/
def chatResult (over : Bool) (r : Except GoErr OllamaChatResponse) :
    Except GoErr OllamaChatResponse :=
  if over then .error .deadlineExceeded else r

/-- Chat turn 1 against its scope (main.go:136): fresh 30-second budget,
the call starts immediately, so it expires iff its own duration exceeds 30. -/
def turn1Result (env : Env) : Except GoErr OllamaChatResponse :=
  chatResult (30 < env.d1) env.turn1

/-- Chat turn 2 against its scope (main.go:179): the scope opens before
`chatTrustyReport`, and the lookup (which ignores the context) runs
inside it first, so the chat call expires iff the lookup's duration plus
its own exceeds 30. -/
def turn2Result (env : Env) : Except GoErr OllamaChatResponse :=
  chatResult (30 < env.dLookup + env.d2) env.turn2

/-- Chat turn 3 against its scope (main.go:202): fresh 30-second budget. -/
def turn3Result (env : Env) : Except GoErr OllamaChatResponse :=
  chatResult (30 < env.d3) env.turn3

/-! ## The program: `examples/trusty/main.go` -/

/-- `trustyTool` (main.go:19-39): the registered tool descriptor. -/
def trustyTool : JValue :=
  .jobj (.ofList [
    ("type", .jstr "function"),
    ("function", .jobj (.ofList [
      ("name", .jstr "trustyReport"),
      ("description", .jstr "Evaluate the trustworthiness of a package"),
      ("parameters", .jobj (.ofList [
        ("type", .jstr "object"),
        ("properties", .jobj (.ofList [
          ("package_name", .jobj (.ofList [
            ("type", .jstr "string"),
            ("description", .jstr "The name of the package")])),
          ("ecosystem", .jobj (.ofList [
            ("type", .jstr "string"),
            ("description", .jstr "The ecosystem of the package")]))])),
        ("required", .jarr (.ofList [.jstr "package_name", .jstr "ecosystem"]))]))]))])

/-- The URL built at main.go:43 by `fmt.Sprintf`. -/
def reportUrl (packageName ecosystem : String) : String :=
  "https://api.trustypkg.dev/v1/report?package_name=" ++ packageName ++
    "&package_type=" ++ ecosystem

/-- `trustyReport` (main.go:41-82): build the request, perform it, read
the body, `json.Unmarshal` it, and re-serialize with `MarshalIndent`.
The HTTP status code of the response is never inspected. -/
def trustyReport (env : Env) (packageName ecosystem : String) :
    Except GoErr String × List Event :=
  let ev := [Event.lookup packageName ecosystem]
  match env.newRequestErr with
  | some e => (.error e, ev)
  | none =>
    let ev := ev ++ [Event.httpDo (reportUrl packageName ecosystem)]
    match env.doResult with
    | .error e => (.error e, ev)
    | .ok resp =>
      match resp.bodyResult with
      | .error e => (.error e, ev)
      | .ok body =>
        match unmarshalMap body with
        | none => (.error (.badJSON body), ev)
        | some o => (.ok (marshalIndent (.jobj o)), ev)

/-- `responseAsMap` (main.go:84-97): `json.Marshal` the reply, then
`json.Unmarshal` into a map; on either failure return Go's `nil` map
(`none`) instead of an error. -/
def responseAsMap (env : Env) (resp : OllamaResponseMessage) : Option JObj :=
  match env.marshalMsg resp with
  | none => none
  | some data =>
    match unmarshalMap data with
    | none => none
    | some result => some result

/-- A `map[string]any{"role": ..., "content": ...}` literal. -/
def roleContentMsg (role content : String) : CtxMsg :=
  some (.cons "role" (.jstr role) (.cons "content" (.jstr content) .nil))

/-- Go map indexing `call.Arguments[key]`. -/
def argLookup : List (String × JValue) → String → Option JValue
  | [], _ => none
  | (k, v) :: tl, key => if k = key then some v else argLookup tl key

/-- The type assertion `.(string)`: succeeds exactly on a present
string-valued entry. -/
def asString : Option JValue → Option String
  | some (.jstr s) => some s
  | _ => none

/-- `chatTrustyReport` (main.go:99-128): validate the two arguments,
fetch the report, append it as a `tool` message and issue chat turn 2.
Its `log.Fatalf` calls become `Except.error` outcomes. -/
def chatTrustyReport (env : Env) (messages : List CtxMsg) (call : OllamaFunctionCall) :
    Except Fatal OllamaResponseMessage × List Event :=
  match asString (argLookup call.arguments "package_name") with
  | none => (.error .argPackageName, [])
  | some pkgName =>
    match asString (argLookup call.arguments "ecosystem") with
    | none => (.error .argEcosystem, [])
    | some ecoSystem =>
      let rep := trustyReport env pkgName ecoSystem
      match rep.1 with
      | .error e => (.error (.lookupFailed e), rep.2)
      | .ok trustyReply =>
        let messages2 := messages ++ [roleContentMsg "tool" trustyReply]
        let ev := rep.2 ++ [Event.chatCall messages2 none]
        match turn2Result env with
        | .error .deadlineExceeded => (.error .timeout, ev)
        | .error e => (.error (.backend e), ev)
        | .ok resp => (.ok resp.message, ev)

/-- The instructional prefix (main.go:140-148), byte for byte. -/
def promptBase : String :=
  " You are to help a user with selecting a dependency.\nYour job is to provide a recommendation based on the user's prompt. \nYou might be provided a JSON summary along with the user's prompt. Do not summarize the JSON back to the user.\nFocus on whether the package is malicious or deprecated based on the provided tool input you get as JSON.\nFocus less on the number of stars or forks.\nIf the package is malicious or deprecated, recommend a safer alternative.\nIf the package is safe, recommend the package.\nProvide a short summary, do not summarize the tool output.\nThe user says: "

/-- The summary instruction (main.go:197-198), byte for byte. -/
def summaryPrompt : String :=
  "Summarize the previous response in a single short paragraph. Focus on whether the package is\nmalicious or deprecated. If you advise to not use the package, recommend a safer alternative. If the package is safe, recommend the package."

/-- `strings.Join(xs, " ")`. -/
def joinSpace : List String → String
  | [] => ""
  | [s] => s
  | s :: tl => s ++ " " ++ joinSpace tl

/-- `main` (main.go:130-218) as a function of the environment and the
CLI arguments, returning the outcome and the event trace.  Each chat
turn runs inside its own fresh `context.WithTimeout(Background, 30s)`
scope; the scope for turn 2 is opened (main.go:179) before
`chatTrustyReport` runs the lookup, so the lookup's duration counts
against turn 2's budget, while turns 1 and 3 get the full 30 seconds. -/
def runMain (env : Env) (userPrompt : List String) : Outcome × List Event :=
  let prompt := promptBase ++ " " ++ joinSpace userPrompt
  let messages : List CtxMsg := [roleContentMsg "user" prompt]
  let ev1 := [Event.chatCall messages (some [trustyTool])]
  match turn1Result env with
  | .error .deadlineExceeded => (.fatal .timeout, ev1)
  | .error e => (.fatal (.backend e), ev1)
  | .ok ollamaResponse =>
    let messages := messages ++ [responseAsMap env ollamaResponse.message]
    match ollamaResponse.message.toolCalls with
    | [] =>
      (.directAnswer ollamaResponse.message.content,
        ev1 ++ [Event.stdout "The model did not use tools. It generated the response on its own.",
                Event.stdout ("Content:  " ++ ollamaResponse.message.content)])
    | call0 :: _ =>
      if call0.function.name = "trustyReport" then
        let r2 := chatTrustyReport env messages call0.function
        match r2.1 with
        | .error f => (.fatal f, ev1 ++ r2.2)
        | .ok ollamaTrustyMessage =>
          let messages2 : List CtxMsg :=
            [roleContentMsg "user" ollamaTrustyMessage.content,
             roleContentMsg "user" summaryPrompt]
          let ev3 := ev1 ++ r2.2 ++ [Event.chatCall messages2 none]
          match turn3Result env with
          | .error .deadlineExceeded => (.fatal .timeout, ev3)
          | .error e => (.fatal (.backend e), ev3)
          | .ok resp3 =>
            (.success resp3.message.content,
              ev3 ++ [Event.stdout ("Response:\n" ++ resp3.message.content ++ "\n")])
      else (.fatal (.unexpectedFunction call0.function.name), ev1)

/-! ## Trace observers and sample environments -/

/-- The chat turns in a trace: message context and tools offered. -/
def chatEvents (t : List Event) : List (List CtxMsg × Option (List JValue)) :=
  t.filterMap (fun e => match e with | .chatCall ms tools => some (ms, tools) | _ => none)

/-- The lookup-capability invocations in a trace, with their arguments. -/
def lookupEvents (t : List Event) : List (String × String) :=
  t.filterMap (fun e => match e with | .lookup p q => some (p, q) | _ => none)

/-- The outbound HTTP requests in a trace. -/
def httpEvents (t : List Event) : List String :=
  t.filterMap (fun e => match e with | .httpDo u => some u | _ => none)

/-- The stdout writes in a trace. -/
def stdoutEvents (t : List Event) : List String :=
  t.filterMap (fun e => match e with | .stdout s => some s | _ => none)

/-- A reply requesting `trustyReport` for left-pad/npm. -/
def sampleCall : OllamaFunctionCall :=
  { name := "trustyReport",
    arguments := [("package_name", .jstr "left-pad"), ("ecosystem", .jstr "npm")] }

def sampleToolReply : OllamaResponseMessage :=
  { role := "assistant", content := "", toolCalls := [{ function := sampleCall }] }

def sampleDirectReply : OllamaResponseMessage :=
  { role := "assistant", content := "looks fine", toolCalls := [] }

def sampleSummaryReply : OllamaResponseMessage :=
  { role := "assistant", content := "use left-pad", toolCalls := [] }

/-- A fully successful tool-using run. -/
def envBase : Env :=
  { turn1 := .ok { message := sampleToolReply }
    turn2 := .ok { message := sampleDirectReply }
    turn3 := .ok { message := sampleSummaryReply }
    newRequestErr := none
    doResult := .ok { statusCode := 200, bodyResult := .ok "\x7b\"score\": 9\x7d" }
    marshalMsg := fun _ => some "\x7b\"role\": \"assistant\"\x7d"
    d1 := 1, dLookup := 1, d2 := 1, d3 := 1 }

/-! ## Environment congruence

`runMain` consults the environment only through the three scoped turn
results, the HTTP layer and `json.Marshal`; two environments agreeing
there produce identical runs.  This is the backbone of the timeout
independence proofs. -/

theorem trustyReport_ext (e1 e2 : Env) (pkg eco : String)
    (hr : e1.newRequestErr = e2.newRequestErr) (hdo : e1.doResult = e2.doResult) :
    trustyReport e1 pkg eco = trustyReport e2 pkg eco := by
  simp only [trustyReport, hr, hdo]

theorem responseAsMap_ext (e1 e2 : Env) (m : OllamaResponseMessage)
    (hm : e1.marshalMsg = e2.marshalMsg) :
    responseAsMap e1 m = responseAsMap e2 m := by
  simp only [responseAsMap, hm]

theorem chatTrustyReport_ext (e1 e2 : Env) (ms : List CtxMsg) (call : OllamaFunctionCall)
    (hr : e1.newRequestErr = e2.newRequestErr) (hdo : e1.doResult = e2.doResult)
    (ht2 : turn2Result e1 = turn2Result e2) :
    chatTrustyReport e1 ms call = chatTrustyReport e2 ms call := by
  simp only [chatTrustyReport, trustyReport_ext e1 e2 _ _ hr hdo, ht2]

theorem runMain_ext (e1 e2 : Env) (p : List String)
    (h1 : turn1Result e1 = turn1Result e2) (h2 : turn2Result e1 = turn2Result e2)
    (h3 : turn3Result e1 = turn3Result e2)
    (hr : e1.newRequestErr = e2.newRequestErr) (hdo : e1.doResult = e2.doResult)
    (hm : e1.marshalMsg = e2.marshalMsg) :
    runMain e1 p = runMain e2 p := by
  simp only [runMain, h1, h3,
    responseAsMap_ext e1 e2 _ hm, chatTrustyReport_ext e1 e2 _ _ hr hdo h2]

/-! ## Claim theorems -/

theorem turn1Result_ok (env : Env) (resp : OllamaChatResponse)
    (h1 : env.turn1 = .ok resp) (hd : env.d1 ≤ 30) : turn1Result env = .ok resp := by
  simp [turn1Result, chatResult, Nat.not_lt.mpr hd, h1]

/-- C2: a first-turn reply containing zero tool calls terminates the run
in the direct-answer state, the text returned is the reply's content
verbatim, and no further model turn (and no lookup or HTTP request) is
ever issued; stdout carries the two `fmt.Println` lines. -/
theorem claim_direct_answer (env : Env) (p : List String) (resp : OllamaChatResponse)
    (h1 : env.turn1 = .ok resp) (hd : env.d1 ≤ 30)
    (hno : resp.message.toolCalls = []) :
    (runMain env p).1 = .directAnswer resp.message.content ∧
    chatEvents (runMain env p).2 =
      [([roleContentMsg "user" (promptBase ++ " " ++ joinSpace p)], some [trustyTool])] ∧
    lookupEvents (runMain env p).2 = [] ∧
    httpEvents (runMain env p).2 = [] ∧
    stdoutEvents (runMain env p).2 =
      ["The model did not use tools. It generated the response on its own.",
       "Content:  " ++ resp.message.content] := by
  simp [runMain, turn1Result_ok env resp h1 hd, hno,
    chatEvents, lookupEvents, httpEvents, stdoutEvents]

def envDirect : Env := { envBase with turn1 := .ok { message := sampleDirectReply } }

theorem claim_direct_answer_witness :
    (runMain envDirect ["is", "left-pad", "safe"]).1 = .directAnswer "looks fine" :=
  (claim_direct_answer envDirect ["is", "left-pad", "safe"]
    { message := sampleDirectReply } rfl (by decide) rfl).1

/-- C3: a first-turn reply whose first tool call names anything other
than `trustyReport` aborts the run with the unexpected-function fatal
error; no second or third model turn is issued, no lookup happens, no
HTTP request is made, and nothing is printed to stdout. -/
theorem claim_unexpected_tool (env : Env) (p : List String) (resp : OllamaChatResponse)
    (call0 : OllamaToolCall) (rest : List OllamaToolCall)
    (h1 : env.turn1 = .ok resp) (hd : env.d1 ≤ 30)
    (htc : resp.message.toolCalls = call0 :: rest)
    (hname : call0.function.name ≠ "trustyReport") :
    (runMain env p).1 = .fatal (.unexpectedFunction call0.function.name) ∧
    chatEvents (runMain env p).2 =
      [([roleContentMsg "user" (promptBase ++ " " ++ joinSpace p)], some [trustyTool])] ∧
    lookupEvents (runMain env p).2 = [] ∧
    httpEvents (runMain env p).2 = [] ∧
    stdoutEvents (runMain env p).2 = [] := by
  simp [runMain, turn1Result_ok env resp h1 hd, htc, hname,
    chatEvents, lookupEvents, httpEvents, stdoutEvents]

def otherToolReply : OllamaResponseMessage :=
  { role := "assistant", content := "",
    toolCalls := [{ function := { name := "otherTool", arguments := [] } }] }

def envOtherTool : Env := { envBase with turn1 := .ok { message := otherToolReply } }

theorem claim_unexpected_tool_witness :
    (runMain envOtherTool ["x"]).1 = .fatal (.unexpectedFunction "otherTool") ∧
    lookupEvents (runMain envOtherTool ["x"]).2 = [] ∧
    httpEvents (runMain envOtherTool ["x"]).2 = [] := by
  have h := claim_unexpected_tool envOtherTool ["x"] { message := otherToolReply }
    { function := { name := "otherTool", arguments := [] } } [] rfl (by decide) rfl (by decide)
  exact ⟨h.1, h.2.2.1, h.2.2.2.1⟩

/-- C7: when the first tool call names `trustyReport`, the invoker
validates `package_name` then `ecosystem`: a missing or non-string
`package_name` is the fatal argument error for it, and with a valid
`package_name` a missing or non-string `ecosystem` is the fatal
argument error for it; in either case no lookup invocation and no HTTP
request happen, and no retry or further model turn is issued. -/
theorem claim_argument_validation (env : Env) (p : List String) (resp : OllamaChatResponse)
    (call0 : OllamaToolCall) (rest : List OllamaToolCall)
    (h1 : env.turn1 = .ok resp) (hd : env.d1 ≤ 30)
    (htc : resp.message.toolCalls = call0 :: rest)
    (hname : call0.function.name = "trustyReport")
    (hbad : asString (argLookup call0.function.arguments "package_name") = none ∨
            asString (argLookup call0.function.arguments "ecosystem") = none) :
    ((asString (argLookup call0.function.arguments "package_name") = none →
        (runMain env p).1 = .fatal .argPackageName) ∧
     (∀ s, asString (argLookup call0.function.arguments "package_name") = some s →
        (runMain env p).1 = .fatal .argEcosystem)) ∧
    lookupEvents (runMain env p).2 = [] ∧
    httpEvents (runMain env p).2 = [] ∧
    chatEvents (runMain env p).2 =
      [([roleContentMsg "user" (promptBase ++ " " ++ joinSpace p)], some [trustyTool])] := by
  cases hp : asString (argLookup call0.function.arguments "package_name") with
  | none =>
    simp [runMain, turn1Result_ok env resp h1 hd, htc, hname, chatTrustyReport, hp,
      chatEvents, lookupEvents, httpEvents]
  | some s =>
    have he : asString (argLookup call0.function.arguments "ecosystem") = none := by
      rcases hbad with hb | hb
      · rw [hp] at hb; cases hb
      · exact hb
    simp [runMain, turn1Result_ok env resp h1 hd, htc, hname, chatTrustyReport, hp, he,
      chatEvents, lookupEvents, httpEvents]

def badArgsReply : OllamaResponseMessage :=
  { role := "assistant", content := "",
    toolCalls := [{ function := { name := "trustyReport",
                                  arguments := [("package_name", .jnum 3)] } }] }

def envBadArgs : Env := { envBase with turn1 := .ok { message := badArgsReply } }

theorem claim_argument_validation_witness :
    (runMain envBadArgs ["x"]).1 = .fatal .argPackageName ∧
    lookupEvents (runMain envBadArgs ["x"]).2 = [] := by
  have h := claim_argument_validation envBadArgs ["x"] { message := badArgsReply }
    { function := { name := "trustyReport", arguments := [("package_name", .jnum 3)] } } []
    rfl (by decide) rfl rfl (Or.inl (by decide))
  exact ⟨h.1.1 (by decide), h.2.1⟩

/-- The result half of `chatTrustyReport` never depends on the message
context it is handed (only the trace half does). -/
theorem chatTrustyReport_fst (env : Env) (ms ms2 : List CtxMsg) (call : OllamaFunctionCall) :
    (chatTrustyReport env ms call).1 = (chatTrustyReport env ms2 call).1 := by
  cases hp : asString (argLookup call.arguments "package_name") with
  | none => simp [chatTrustyReport, hp]
  | some pkg =>
    cases he : asString (argLookup call.arguments "ecosystem") with
    | none => simp [chatTrustyReport, hp, he]
    | some eco =>
      simp only [chatTrustyReport, hp, he]
      cases hr : (trustyReport env pkg eco).1 with
      | error e => simp [hr]
      | ok rep =>
        simp only [hr]
        cases h2 : turn2Result env with
        | error e => cases e <;> simp [h2]
        | ok r => simp [h2]

/-- On the tool path, the final outcome is a function of the
environment and the first tool call alone. -/
theorem runMain_fst_toolpath (env : Env) (p : List String) (resp : OllamaChatResponse)
    (call0 : OllamaToolCall) (rest : List OllamaToolCall)
    (h1 : env.turn1 = .ok resp) (hd : env.d1 ≤ 30)
    (htc : resp.message.toolCalls = call0 :: rest)
    (hname : call0.function.name = "trustyReport") :
    (runMain env p).1 =
      (match (chatTrustyReport env [] call0.function).1 with
       | .error f => Outcome.fatal f
       | .ok _ =>
         match turn3Result env with
         | .error .deadlineExceeded => Outcome.fatal .timeout
         | .error e => Outcome.fatal (.backend e)
         | .ok resp3 => Outcome.success resp3.message.content) := by
  simp only [runMain, turn1Result_ok env resp h1 hd, htc, hname, if_pos]
  rw [chatTrustyReport_fst env _ [] call0.function]
  cases hc : (chatTrustyReport env [] call0.function).1 with
  | error f => simp
  | ok m =>
    cases h3 : turn3Result env with
    | error e => cases e <;> simp
    | ok r3 => simp

/-- The lookup's trace: one capability invocation, plus the HTTP
request whenever building the request succeeded. -/
theorem trustyReport_snd (env : Env) (pkg eco : String) :
    (trustyReport env pkg eco).2 =
      Event.lookup pkg eco ::
        (match env.newRequestErr with
         | some _ => []
         | none => [Event.httpDo (reportUrl pkg eco)]) := by
  cases hr : env.newRequestErr with
  | some e => simp [trustyReport, hr]
  | none =>
    simp only [trustyReport, hr]
    cases hdo : env.doResult with
    | error e => simp
    | ok resp =>
      cases hb : resp.bodyResult with
      | error e => simp [hb]
      | ok body => cases hm : unmarshalMap body <;> simp [hb, hm]

/-- The trace of `chatTrustyReport` once both arguments validate:
the lookup's trace, then (if the lookup succeeded) chat turn 2 with the
tool message appended and tools disabled. -/
theorem chatTrustyReport_snd (env : Env) (ms : List CtxMsg) (call : OllamaFunctionCall)
    (pkg eco : String)
    (hpkg : asString (argLookup call.arguments "package_name") = some pkg)
    (heco : asString (argLookup call.arguments "ecosystem") = some eco) :
    (chatTrustyReport env ms call).2 =
      (trustyReport env pkg eco).2 ++
      (match (trustyReport env pkg eco).1 with
       | .error _ => []
       | .ok rep => [Event.chatCall (ms ++ [roleContentMsg "tool" rep]) none]) := by
  simp only [chatTrustyReport, hpkg, heco]
  cases hr : (trustyReport env pkg eco).1 with
  | error e => simp
  | ok rep =>
    cases h2 : turn2Result env with
    | error e => cases e <;> simp
    | ok r => simp

/-- Events following chat turn 2 on the tool path: the summary turn and
(on success) the final stdout write. -/
def tailTrace (env : Env) (call : OllamaFunctionCall) : List Event :=
  match (chatTrustyReport env [] call).1 with
  | .error _ => []
  | .ok m2 =>
    Event.chatCall [roleContentMsg "user" m2.content, roleContentMsg "user" summaryPrompt] none ::
    (match turn3Result env with
     | .error _ => []
     | .ok r3 => [Event.stdout ("Response:\n" ++ r3.message.content ++ "\n")])

/-- On the tool path, the whole trace decomposes as: chat turn 1, the
tool handler's trace (over the context with the turn-1 reply appended),
then `tailTrace`. -/
theorem runMain_snd_toolpath (env : Env) (p : List String) (resp : OllamaChatResponse)
    (call0 : OllamaToolCall) (rest : List OllamaToolCall)
    (h1 : env.turn1 = .ok resp) (hd : env.d1 ≤ 30)
    (htc : resp.message.toolCalls = call0 :: rest)
    (hname : call0.function.name = "trustyReport") :
    (runMain env p).2 =
      Event.chatCall [roleContentMsg "user" (promptBase ++ " " ++ joinSpace p)]
          (some [trustyTool]) ::
        ((chatTrustyReport env
            ([roleContentMsg "user" (promptBase ++ " " ++ joinSpace p)] ++
              [responseAsMap env resp.message]) call0.function).2 ++
          tailTrace env call0.function) := by
  simp only [runMain, turn1Result_ok env resp h1 hd, htc, hname, if_pos, tailTrace]
  rw [show (chatTrustyReport env [] call0.function).1 =
      (chatTrustyReport env
        ([roleContentMsg "user" (promptBase ++ " " ++ joinSpace p)] ++
          [responseAsMap env resp.message]) call0.function).1 from
    chatTrustyReport_fst env [] _ call0.function]
  cases hc : (chatTrustyReport env
      ([roleContentMsg "user" (promptBase ++ " " ++ joinSpace p)] ++
        [responseAsMap env resp.message]) call0.function).1 with
  | error f => simp
  | ok m =>
    cases h3 : turn3Result env with
    | error e => cases e <;> simp
    | ok r3 => simp

theorem lookupEvents_tailTrace (env : Env) (call : OllamaFunctionCall) :
    lookupEvents (tailTrace env call) = [] := by
  simp only [tailTrace]
  cases hc : (chatTrustyReport env [] call).1 with
  | error f => simp [lookupEvents]
  | ok m => cases h3 : turn3Result env <;> simp [lookupEvents]

theorem httpEvents_tailTrace (env : Env) (call : OllamaFunctionCall) :
    httpEvents (tailTrace env call) = [] := by
  simp only [tailTrace]
  cases hc : (chatTrustyReport env [] call).1 with
  | error f => simp [httpEvents]
  | ok m => cases h3 : turn3Result env <;> simp [httpEvents]

theorem lookupEvents_nil : lookupEvents [] = [] := rfl

theorem lookupEvents_cons_chat (ms : List CtxMsg) (tools : Option (List JValue))
    (t : List Event) : lookupEvents (Event.chatCall ms tools :: t) = lookupEvents t := rfl

theorem lookupEvents_cons_http (u : String) (t : List Event) :
    lookupEvents (Event.httpDo u :: t) = lookupEvents t := rfl

theorem lookupEvents_cons_stdout (s : String) (t : List Event) :
    lookupEvents (Event.stdout s :: t) = lookupEvents t := rfl

theorem lookupEvents_cons_lookup (a b : String) (t : List Event) :
    lookupEvents (Event.lookup a b :: t) = (a, b) :: lookupEvents t := rfl

theorem httpEvents_cons_chat (ms : List CtxMsg) (tools : Option (List JValue))
    (t : List Event) : httpEvents (Event.chatCall ms tools :: t) = httpEvents t := rfl

theorem httpEvents_cons_lookup (a b : String) (t : List Event) :
    httpEvents (Event.lookup a b :: t) = httpEvents t := rfl

theorem httpEvents_cons_stdout (s : String) (t : List Event) :
    httpEvents (Event.stdout s :: t) = httpEvents t := rfl

theorem httpEvents_cons_http (u : String) (t : List Event) :
    httpEvents (Event.httpDo u :: t) = u :: httpEvents t := rfl

theorem chatEvents_cons_chat (ms : List CtxMsg) (tools : Option (List JValue))
    (t : List Event) :
    chatEvents (Event.chatCall ms tools :: t) = (ms, tools) :: chatEvents t := rfl

theorem chatEvents_cons_lookup (a b : String) (t : List Event) :
    chatEvents (Event.lookup a b :: t) = chatEvents t := rfl

theorem chatEvents_cons_http (u : String) (t : List Event) :
    chatEvents (Event.httpDo u :: t) = chatEvents t := rfl

theorem chatEvents_cons_stdout (s : String) (t : List Event) :
    chatEvents (Event.stdout s :: t) = chatEvents t := rfl

theorem chatEvents_nil : chatEvents [] = [] := rfl

theorem stdoutEvents_cons_chat (ms : List CtxMsg) (tools : Option (List JValue))
    (t : List Event) : stdoutEvents (Event.chatCall ms tools :: t) = stdoutEvents t := rfl

theorem stdoutEvents_cons_lookup (a b : String) (t : List Event) :
    stdoutEvents (Event.lookup a b :: t) = stdoutEvents t := rfl

theorem stdoutEvents_cons_http (u : String) (t : List Event) :
    stdoutEvents (Event.httpDo u :: t) = stdoutEvents t := rfl

theorem stdoutEvents_cons_stdout (s : String) (t : List Event) :
    stdoutEvents (Event.stdout s :: t) = s :: stdoutEvents t := rfl

theorem stdoutEvents_nil : stdoutEvents [] = [] := rfl

theorem lookupEvents_append (a b : List Event) :
    lookupEvents (a ++ b) = lookupEvents a ++ lookupEvents b := by
  simp [lookupEvents]

theorem httpEvents_nil : httpEvents [] = [] := rfl

theorem httpEvents_append (a b : List Event) :
    httpEvents (a ++ b) = httpEvents a ++ httpEvents b := by
  simp [httpEvents]

theorem chatEvents_append (a b : List Event) :
    chatEvents (a ++ b) = chatEvents a ++ chatEvents b := by
  simp [chatEvents]

theorem stdoutEvents_append (a b : List Event) :
    stdoutEvents (a ++ b) = stdoutEvents a ++ stdoutEvents b := by
  simp [stdoutEvents]

/-- C4: when the first-turn reply's first tool call names the registered
tool and carries string `package_name` and `ecosystem` arguments, the
run invokes the lookup capability exactly once, with exactly those two
argument values (and issues exactly one HTTP request, to the URL built
from them, whenever request construction succeeds); any further tool
calls in the same reply are accepted — the final outcome is the same as
if the reply carried only the first call — but never acted upon: still
exactly one lookup. -/
theorem claim_lookup_once_first_call (env : Env) (p : List String)
    (resp : OllamaChatResponse) (call0 : OllamaToolCall) (rest : List OllamaToolCall)
    (pkg eco : String)
    (h1 : env.turn1 = .ok resp) (hd : env.d1 ≤ 30)
    (htc : resp.message.toolCalls = call0 :: rest)
    (hname : call0.function.name = "trustyReport")
    (hpkg : asString (argLookup call0.function.arguments "package_name") = some pkg)
    (heco : asString (argLookup call0.function.arguments "ecosystem") = some eco) :
    lookupEvents (runMain env p).2 = [(pkg, eco)] ∧
    (env.newRequestErr = none → httpEvents (runMain env p).2 = [reportUrl pkg eco]) ∧
    (∀ (mB : OllamaResponseMessage) (restB : List OllamaToolCall),
       mB.toolCalls = call0 :: restB →
       (runMain { env with turn1 := .ok { message := mB } } p).1 = (runMain env p).1) := by
  refine ⟨?_, fun hreq => ?_, fun mB restB hB => ?_⟩
  · rw [runMain_snd_toolpath env p resp call0 rest h1 hd htc hname,
      chatTrustyReport_snd env _ call0.function pkg eco hpkg heco,
      trustyReport_snd]
    cases hr : env.newRequestErr with
    | some e =>
      cases hr1 : (trustyReport env pkg eco).1 <;>
        simp [lookupEvents_append, lookupEvents_tailTrace, lookupEvents_cons_chat,
          lookupEvents_cons_http, lookupEvents_cons_lookup, lookupEvents_nil]
    | none =>
      cases hr1 : (trustyReport env pkg eco).1 <;>
        simp [lookupEvents_append, lookupEvents_tailTrace, lookupEvents_cons_chat,
          lookupEvents_cons_http, lookupEvents_cons_lookup, lookupEvents_nil]
  · rw [runMain_snd_toolpath env p resp call0 rest h1 hd htc hname,
      chatTrustyReport_snd env _ call0.function pkg eco hpkg heco,
      trustyReport_snd, hreq]
    cases hr1 : (trustyReport env pkg eco).1 <;>
      simp [httpEvents_append, httpEvents_tailTrace, httpEvents_cons_chat,
        httpEvents_cons_http, httpEvents_cons_lookup, httpEvents_nil]
  · rw [runMain_fst_toolpath { env with turn1 := .ok { message := mB } } p
        { message := mB } call0 restB rfl hd hB hname,
      runMain_fst_toolpath env p resp call0 rest h1 hd htc hname,
      chatTrustyReport_ext { env with turn1 := .ok { message := mB } } env []
        call0.function rfl rfl rfl]
    rfl

def multiCallReply : OllamaResponseMessage :=
  { role := "assistant", content := "",
    toolCalls := [{ function := sampleCall },
                  { function := { name := "otherTool", arguments := [] } }] }

def envMultiCall : Env := { envBase with turn1 := .ok { message := multiCallReply } }

theorem claim_lookup_once_first_call_witness :
    lookupEvents (runMain envMultiCall ["x"]).2 = [("left-pad", "npm")] ∧
    httpEvents (runMain envMultiCall ["x"]).2 = [reportUrl "left-pad" "npm"] := by
  have h := claim_lookup_once_first_call envMultiCall ["x"]
    { message := multiCallReply }
    { function := sampleCall } [{ function := { name := "otherTool", arguments := [] } }]
    "left-pad" "npm" rfl (by decide) rfl rfl (by decide) (by decide)
  exact ⟨h.1, h.2.1 rfl⟩

/-- C6: when the lookup endpoint times out — surfacing, as with every
transport-level failure of `client.Do`, as an error carrying that cause
— the run aborts with the lookup fatal error (a non-zero exit after
logging to stderr) and nothing is ever printed to stdout. -/
theorem claim_lookup_endpoint_timeout (env : Env) (p : List String)
    (resp : OllamaChatResponse) (call0 : OllamaToolCall) (rest : List OllamaToolCall)
    (pkg eco cause : String)
    (h1 : env.turn1 = .ok resp) (hd : env.d1 ≤ 30)
    (htc : resp.message.toolCalls = call0 :: rest)
    (hname : call0.function.name = "trustyReport")
    (hpkg : asString (argLookup call0.function.arguments "package_name") = some pkg)
    (heco : asString (argLookup call0.function.arguments "ecosystem") = some eco)
    (hreq : env.newRequestErr = none)
    (hdo : env.doResult = .error (.transport cause)) :
    (runMain env p).1 = .fatal (.lookupFailed (.transport cause)) ∧
    stdoutEvents (runMain env p).2 = [] := by
  have htr : (trustyReport env pkg eco).1 = .error (.transport cause) := by
    simp [trustyReport, hreq, hdo]
  have hc : (chatTrustyReport env [] call0.function).1 =
      .error (.lookupFailed (.transport cause)) := by
    simp [chatTrustyReport, hpkg, heco, htr]
  constructor
  · rw [runMain_fst_toolpath env p resp call0 rest h1 hd htc hname, hc]
  · rw [runMain_snd_toolpath env p resp call0 rest h1 hd htc hname,
      chatTrustyReport_snd env _ call0.function pkg eco hpkg heco,
      trustyReport_snd, hreq, htr]
    simp [stdoutEvents_append, stdoutEvents_cons_chat, stdoutEvents_cons_http,
      stdoutEvents_cons_lookup, stdoutEvents_nil, tailTrace, hc]

def envLookupDown : Env :=
  { envBase with doResult := .error (.transport "context deadline exceeded") }

theorem claim_lookup_endpoint_timeout_witness :
    (runMain envLookupDown ["x"]).1 =
      .fatal (.lookupFailed (.transport "context deadline exceeded")) ∧
    stdoutEvents (runMain envLookupDown ["x"]).2 = [] :=
  claim_lookup_endpoint_timeout envLookupDown ["x"] { message := sampleToolReply }
    { function := sampleCall } [] "left-pad" "npm" "context deadline exceeded"
    rfl (by decide) rfl rfl (by decide) (by decide) rfl rfl

/-- C1 (amended): for every tool invocation, if the lookup fails — a
transport-level error, a failure reading the response body, or a
malformed (non-JSON) body — the invocation fails with the lookup fatal
error propagating the underlying cause, and no model turn 2 or 3 is
issued.  The HTTP status code, however, is never inspected: a non-2xx
response whose body is valid JSON succeeds (see the counterexample). -/
theorem claim_lookup_failure_propagates (env : Env) (p : List String)
    (resp : OllamaChatResponse) (call0 : OllamaToolCall) (rest : List OllamaToolCall)
    (pkg eco : String) (e : GoErr)
    (h1 : env.turn1 = .ok resp) (hd : env.d1 ≤ 30)
    (htc : resp.message.toolCalls = call0 :: rest)
    (hname : call0.function.name = "trustyReport")
    (hpkg : asString (argLookup call0.function.arguments "package_name") = some pkg)
    (heco : asString (argLookup call0.function.arguments "ecosystem") = some eco)
    (hfail : (trustyReport env pkg eco).1 = .error e) :
    (runMain env p).1 = .fatal (.lookupFailed e) ∧
    chatEvents (runMain env p).2 =
      [([roleContentMsg "user" (promptBase ++ " " ++ joinSpace p)], some [trustyTool])] := by
  have hc : (chatTrustyReport env [] call0.function).1 = .error (.lookupFailed e) := by
    simp [chatTrustyReport, hpkg, heco, hfail]
  constructor
  · rw [runMain_fst_toolpath env p resp call0 rest h1 hd htc hname, hc]
  · rw [runMain_snd_toolpath env p resp call0 rest h1 hd htc hname,
      chatTrustyReport_snd env _ call0.function pkg eco hpkg heco,
      trustyReport_snd, hfail]
    cases hr : env.newRequestErr <;>
      simp [chatEvents_append, chatEvents_cons_chat, chatEvents_cons_http,
        chatEvents_cons_lookup, chatEvents_nil, tailTrace, hc]

def envBadBody : Env :=
  { envBase with doResult := .ok { statusCode := 200, bodyResult := .ok "<html>oops" } }

theorem claim_lookup_failure_propagates_witness :
    (runMain envBadBody ["x"]).1 = .fatal (.lookupFailed (.badJSON "<html>oops")) ∧
    chatEvents (runMain envBadBody ["x"]).2 =
      [([roleContentMsg "user" (promptBase ++ " " ++ joinSpace ["x"])], some [trustyTool])] :=
  claim_lookup_failure_propagates envBadBody ["x"] { message := sampleToolReply }
    { function := sampleCall } [] "left-pad" "npm" (.badJSON "<html>oops")
    rfl (by decide) rfl rfl (by decide) (by decide) (by decide)

def env404 : Env :=
  { envBase with
    doResult := .ok { statusCode := 404, bodyResult := .ok "\x7b\"error\": \"not found\"\x7d" } }

/-- C1 counterexample: the claim requires a non-2xx HTTP status to fail
the invocation with a `LookupError`, but `trustyReport` never reads
`resp.StatusCode`: with status 404 and a valid JSON body the invocation
succeeds, returning the re-indented body. -/
theorem claim_lookup_failure_counterexample :
    env404.doResult =
      .ok { statusCode := 404, bodyResult := .ok "\x7b\"error\": \"not found\"\x7d" } ∧
    (trustyReport env404 "left-pad" "npm").1 =
      .ok "\x7b\n  \"error\": \"not found\"\n\x7d" := ⟨rfl, by decide⟩

/-- C10: if `json.Marshal`ing the first-turn assistant reply fails, or
re-parsing the marshalled bytes fails, `responseAsMap` returns Go's nil
map rather than an error, and `main` appends that nil unconditionally:
the run continues, and the context sent to the tool-result model turn
(turn 2) contains a null message where the assistant reply should be. -/
theorem claim_responseAsMap_nil (env : Env) (p : List String)
    (resp : OllamaChatResponse) (call0 : OllamaToolCall) (rest : List OllamaToolCall)
    (pkg eco : String) (rep : String)
    (h1 : env.turn1 = .ok resp) (hd : env.d1 ≤ 30)
    (htc : resp.message.toolCalls = call0 :: rest)
    (hname : call0.function.name = "trustyReport")
    (hpkg : asString (argLookup call0.function.arguments "package_name") = some pkg)
    (heco : asString (argLookup call0.function.arguments "ecosystem") = some eco)
    (hm : ∀ s, env.marshalMsg resp.message = some s → unmarshalMap s = none)
    (hok : (trustyReport env pkg eco).1 = .ok rep) :
    responseAsMap env resp.message = none ∧
    Event.chatCall [roleContentMsg "user" (promptBase ++ " " ++ joinSpace p), none,
        roleContentMsg "tool" rep] none ∈ (runMain env p).2 := by
  have hnil : responseAsMap env resp.message = none := by
    cases hmm : env.marshalMsg resp.message with
    | none => simp [responseAsMap, hmm]
    | some s => simp [responseAsMap, hmm, hm s hmm]
  refine ⟨hnil, ?_⟩
  rw [runMain_snd_toolpath env p resp call0 rest h1 hd htc hname,
    chatTrustyReport_snd env _ call0.function pkg eco hpkg heco, hok]
  simp [hnil]

def envMarshalFail : Env := { envBase with marshalMsg := fun _ => none }

theorem claim_responseAsMap_nil_witness :
    responseAsMap envMarshalFail sampleToolReply = none ∧
    Event.chatCall [roleContentMsg "user" (promptBase ++ " " ++ joinSpace ["x"]), none,
        roleContentMsg "tool" "\x7b\n  \"score\": 9\n\x7d"] none
      ∈ (runMain envMarshalFail ["x"]).2 :=
  claim_responseAsMap_nil envMarshalFail ["x"] { message := sampleToolReply }
    { function := sampleCall } [] "left-pad" "npm" "\x7b\n  \"score\": 9\n\x7d"
    rfl (by decide) rfl rfl (by decide) (by decide) (fun _ h => nomatch h) (by decide)

/-- C5: each model turn runs inside its own fixed 30-unit cancellation
scope and expiry surfaces as the fatal timeout error.  (i) turn 1's
expiry aborts the run after the single chat attempt; (ii) the scopes
are independent: varying one turn's duration within its bound leaves
the entire run unchanged — so time consumed by one turn never shrinks a
later turn's budget (turn 2's own budget is reduced only by the lookup
running inside its scope, not by turn 1); (iii) turn 2's expiry is the
fatal timeout, and turn 1's already-returned reply is unaffected: it is
still the appended second message of turn 2's context; (iv) turn 3's
expiry is likewise the fatal timeout. -/
theorem claim_turn_timeout_scopes (env : Env) (p : List String) :
    (30 < env.d1 → runMain env p =
      (.fatal .timeout,
       [Event.chatCall [roleContentMsg "user" (promptBase ++ " " ++ joinSpace p)]
          (some [trustyTool])])) ∧
    ((∀ x y, x ≤ 30 → y ≤ 30 →
        runMain { env with d1 := x } p = runMain { env with d1 := y } p) ∧
     (∀ x y, env.dLookup + x ≤ 30 → env.dLookup + y ≤ 30 →
        runMain { env with d2 := x } p = runMain { env with d2 := y } p) ∧
     (∀ x y, x ≤ 30 → y ≤ 30 →
        runMain { env with d3 := x } p = runMain { env with d3 := y } p)) ∧
    (∀ (resp : OllamaChatResponse) (call0 : OllamaToolCall) (rest : List OllamaToolCall)
       (pkg eco rep : String),
      env.turn1 = .ok resp → env.d1 ≤ 30 →
      resp.message.toolCalls = call0 :: rest →
      call0.function.name = "trustyReport" →
      asString (argLookup call0.function.arguments "package_name") = some pkg →
      asString (argLookup call0.function.arguments "ecosystem") = some eco →
      (trustyReport env pkg eco).1 = .ok rep →
      30 < env.dLookup + env.d2 →
      (runMain env p).1 = .fatal .timeout ∧
      chatEvents (runMain env p).2 =
        [([roleContentMsg "user" (promptBase ++ " " ++ joinSpace p)], some [trustyTool]),
         ([roleContentMsg "user" (promptBase ++ " " ++ joinSpace p)] ++
            [responseAsMap env resp.message, roleContentMsg "tool" rep], none)]) ∧
    (∀ (resp : OllamaChatResponse) (call0 : OllamaToolCall) (rest : List OllamaToolCall)
       (pkg eco rep : String) (m2 : OllamaChatResponse),
      env.turn1 = .ok resp → env.d1 ≤ 30 →
      resp.message.toolCalls = call0 :: rest →
      call0.function.name = "trustyReport" →
      asString (argLookup call0.function.arguments "package_name") = some pkg →
      asString (argLookup call0.function.arguments "ecosystem") = some eco →
      (trustyReport env pkg eco).1 = .ok rep →
      env.dLookup + env.d2 ≤ 30 → env.turn2 = .ok m2 →
      30 < env.d3 →
      (runMain env p).1 = .fatal .timeout) := by
  refine ⟨fun h => ?_, ⟨fun x y hx hy => ?_, fun x y hx hy => ?_, fun x y hx hy => ?_⟩,
    fun resp call0 rest pkg eco rep h1 hd htc hname hpkg heco hok hover => ?_,
    fun resp call0 rest pkg eco rep m2 h1 hd htc hname hpkg heco hok h2d h2 h3 => ?_⟩
  · simp [runMain, turn1Result, chatResult, h]
  · exact runMain_ext _ _ p
      (by simp [turn1Result, chatResult, Nat.not_lt.mpr hx, Nat.not_lt.mpr hy])
      rfl rfl rfl rfl rfl
  · exact runMain_ext _ _ p rfl
      (by simp [turn2Result, chatResult, Nat.not_lt.mpr hx, Nat.not_lt.mpr hy])
      rfl rfl rfl rfl
  · exact runMain_ext _ _ p rfl rfl
      (by simp [turn3Result, chatResult, Nat.not_lt.mpr hx, Nat.not_lt.mpr hy])
      rfl rfl rfl
  · have h2 : turn2Result env = .error .deadlineExceeded := by
      simp [turn2Result, chatResult, hover]
    have hc : (chatTrustyReport env [] call0.function).1 = .error .timeout := by
      simp [chatTrustyReport, hpkg, heco, hok, h2]
    refine ⟨by rw [runMain_fst_toolpath env p resp call0 rest h1 hd htc hname, hc], ?_⟩
    rw [runMain_snd_toolpath env p resp call0 rest h1 hd htc hname,
      chatTrustyReport_snd env _ call0.function pkg eco hpkg heco,
      trustyReport_snd, hok]
    cases hr : env.newRequestErr <;>
      simp [chatEvents_append, chatEvents_cons_chat, chatEvents_cons_http,
        chatEvents_cons_lookup, chatEvents_nil, tailTrace, hc]
  · have h2r : turn2Result env = .ok m2 := by
      simp [turn2Result, chatResult, Nat.not_lt.mpr h2d, h2]
    have hc : (chatTrustyReport env [] call0.function).1 = .ok m2.message := by
      simp [chatTrustyReport, hpkg, heco, hok, h2r]
    have h3r : turn3Result env = .error .deadlineExceeded := by
      simp [turn3Result, chatResult, h3]
    rw [runMain_fst_toolpath env p resp call0 rest h1 hd htc hname, hc, h3r]

theorem claim_turn_timeout_scopes_witness :
    runMain { envBase with d1 := 31 } ["x"] =
      (.fatal .timeout,
       [Event.chatCall [roleContentMsg "user" (promptBase ++ " " ++ joinSpace ["x"])]
          (some [trustyTool])]) ∧
    runMain { envBase with d1 := 5 } ["x"] = runMain { envBase with d1 := 25 } ["x"] ∧
    (runMain { envBase with d2 := 40 } ["x"]).1 = .fatal .timeout :=
  ⟨(claim_turn_timeout_scopes { envBase with d1 := 31 } ["x"]).1 (by decide),
   (claim_turn_timeout_scopes envBase ["x"]).2.1.1 5 25 (by decide) (by decide),
   ((claim_turn_timeout_scopes { envBase with d2 := 40 } ["x"]).2.2.1
      { message := sampleToolReply } { function := sampleCall } [] "left-pad" "npm"
      "\x7b\n  \"score\": 9\n\x7d" rfl (by decide) rfl rfl (by decide) (by decide)
      (by decide) (by decide)).1⟩

/-- C8 (amended): within the first conversation sequence the
orchestrator only ever appends: turn 2's context is exactly turn 1's
context followed by the turn-1 reply (as re-marshalled by
`responseAsMap`) and the tool-result message, in order, and no message
of it is edited or removed.  The summary turn, however, deliberately
starts a fresh two-message sequence (the documented context reset)
instead of extending the first one, so append-only holds per sequence,
not across the whole run. -/
theorem claim_conversation_append_reset (env : Env) (p : List String)
    (resp : OllamaChatResponse) (call0 : OllamaToolCall) (rest : List OllamaToolCall)
    (pkg eco rep : String) (m2 : OllamaChatResponse)
    (h1 : env.turn1 = .ok resp) (hd : env.d1 ≤ 30)
    (htc : resp.message.toolCalls = call0 :: rest)
    (hname : call0.function.name = "trustyReport")
    (hpkg : asString (argLookup call0.function.arguments "package_name") = some pkg)
    (heco : asString (argLookup call0.function.arguments "ecosystem") = some eco)
    (hok : (trustyReport env pkg eco).1 = .ok rep)
    (h2d : env.dLookup + env.d2 ≤ 30) (h2 : env.turn2 = .ok m2) :
    chatEvents (runMain env p).2 =
      [([roleContentMsg "user" (promptBase ++ " " ++ joinSpace p)], some [trustyTool]),
       ([roleContentMsg "user" (promptBase ++ " " ++ joinSpace p)] ++
          [responseAsMap env resp.message, roleContentMsg "tool" rep], none),
       ([roleContentMsg "user" m2.message.content, roleContentMsg "user" summaryPrompt],
        none)] := by
  have h2r : turn2Result env = .ok m2 := by
    simp [turn2Result, chatResult, Nat.not_lt.mpr h2d, h2]
  have hc : (chatTrustyReport env [] call0.function).1 = .ok m2.message := by
    simp [chatTrustyReport, hpkg, heco, hok, h2r]
  rw [runMain_snd_toolpath env p resp call0 rest h1 hd htc hname,
    chatTrustyReport_snd env _ call0.function pkg eco hpkg heco,
    trustyReport_snd, hok]
  cases hr : env.newRequestErr with
  | some e =>
    cases h3 : turn3Result env <;>
      simp [chatEvents_append, chatEvents_cons_chat, chatEvents_cons_http,
        chatEvents_cons_lookup, chatEvents_cons_stdout, chatEvents_nil, tailTrace, hc, h3]
  | none =>
    cases h3 : turn3Result env <;>
      simp [chatEvents_append, chatEvents_cons_chat, chatEvents_cons_http,
        chatEvents_cons_lookup, chatEvents_cons_stdout, chatEvents_nil, tailTrace, hc, h3]

theorem claim_conversation_append_reset_witness :
    chatEvents (runMain envBase ["x"]).2 =
      [([roleContentMsg "user" (promptBase ++ " " ++ joinSpace ["x"])], some [trustyTool]),
       ([roleContentMsg "user" (promptBase ++ " " ++ joinSpace ["x"])] ++
          [responseAsMap envBase sampleToolReply, roleContentMsg "tool" "\x7b\n  \"score\": 9\n\x7d"],
        none),
       ([roleContentMsg "user" "looks fine", roleContentMsg "user" summaryPrompt], none)] :=
  claim_conversation_append_reset envBase ["x"] { message := sampleToolReply }
    { function := sampleCall } [] "left-pad" "npm" "\x7b\n  \"score\": 9\n\x7d"
    { message := sampleDirectReply }
    rfl (by decide) rfl rfl (by decide) (by decide) (by decide) (by decide) rfl

/-- C8 counterexample: the claim asserts append-only conversation state
for the whole run, with no message ever removed, but in a fully
successful concrete run the original user message — present in the
context of chat turn 2 — is absent from the context sent to chat turn
3: the summary turn's context is a fresh sequence, not an extension. -/
theorem claim_conversation_append_counterexample :
    (chatEvents (runMain envBase ["x"]).2).length = 3 ∧
    roleContentMsg "user" (promptBase ++ " " ++ joinSpace ["x"]) ∈
      ((chatEvents (runMain envBase ["x"]).2).getD 1 ([], none)).1 ∧
    roleContentMsg "user" (promptBase ++ " " ++ joinSpace ["x"]) ∉
      ((chatEvents (runMain envBase ["x"]).2).getD 2 ([], none)).1 := by
  set_option maxRecDepth 4000 in
  exact ⟨by decide, by decide, by decide⟩

/-! ## Canonical-object lemmas

`canonFields` fixes every sorted field list and always produces a
sorted one: the two facts behind the decode/encode round-trip. -/

def JObj.app : JObj → JObj → JObj
  | .nil, o => o
  | .cons k v tl, o => .cons k v (JObj.app tl o)

theorem JObj.app_nil : ∀ o : JObj, JObj.app o .nil = o
  | .nil => rfl
  | .cons _ _ tl => by simp [JObj.app, JObj.app_nil tl]

theorem JObj.app_assoc : ∀ a b c : JObj,
    JObj.app (JObj.app a b) c = JObj.app a (JObj.app b c)
  | .nil, _, _ => rfl
  | .cons _ _ tl, b, c => by simp [JObj.app, JObj.app_assoc tl b c]

def keysBelow (k : String) : JObj → Bool
  | .nil => true
  | .cons k2 _ tl => strLt k2 k && keysBelow k tl

theorem allKeysGt_app (j : String) : ∀ a b : JObj,
    allKeysGt j (JObj.app a b) = (allKeysGt j a && allKeysGt j b)
  | .nil, _ => by simp [JObj.app, allKeysGt]
  | .cons k v tl, b => by
    simp [JObj.app, allKeysGt, allKeysGt_app j tl b, Bool.and_assoc]

theorem objInsert_atEnd (k : String) (v : JValue) : ∀ acc : JObj,
    keysBelow k acc = true → objInsert k v acc = JObj.app acc (.cons k v .nil)
  | .nil, _ => rfl
  | .cons k2 v2 tl, h => by
    simp only [keysBelow, Bool.and_eq_true] at h
    have hne : ¬ k = k2 := by
      intro he; subst he; simp [strLt_irrefl] at h
    have hlt : ¬ strLt k k2 = true := by
      simp [strLt_asymm h.1]
    simp [objInsert, hne, hlt, JObj.app, objInsert_atEnd k v tl h.2]

theorem objSorted_app_keysBelow (k : String) (v : JValue) (tl : JObj) : ∀ acc : JObj,
    objSorted (JObj.app acc (.cons k v tl)) = true → keysBelow k acc = true
  | .nil, _ => rfl
  | .cons k2 v2 t2, h => by
    simp only [JObj.app, objSorted, Bool.and_eq_true, allKeysGt_app, allKeysGt] at h
    simp [keysBelow, h.1.2.1, objSorted_app_keysBelow k v tl t2 h.2]

theorem canonAux_sorted_app : ∀ (o acc : JObj),
    objSorted (JObj.app acc o) = true → canonAux acc o = JObj.app acc o
  | .nil, acc, _ => by simp [canonAux, JObj.app_nil]
  | .cons k v tl, acc, h => by
    have hb : keysBelow k acc = true := objSorted_app_keysBelow k v tl acc h
    have he : JObj.app (JObj.app acc (.cons k v .nil)) tl = JObj.app acc (.cons k v tl) := by
      rw [JObj.app_assoc]; rfl
    simp only [canonAux, objInsert_atEnd k v acc hb]
    rw [canonAux_sorted_app tl _ (by rw [he]; exact h), he]

theorem canonFields_of_sorted (o : JObj) (h : objSorted o = true) : canonFields o = o :=
  canonAux_sorted_app o .nil h

theorem allKeysGt_of_lt (k k2 : String) (h : strLt k k2 = true) : ∀ o : JObj,
    allKeysGt k2 o = true → allKeysGt k o = true
  | .nil, _ => rfl
  | .cons k3 v3 tl, h2 => by
    simp only [allKeysGt, Bool.and_eq_true] at h2 ⊢
    exact ⟨strLt_trans h h2.1, allKeysGt_of_lt k k2 h tl h2.2⟩

theorem allKeysGt_objInsert (j k : String) (v : JValue) : ∀ o : JObj,
    allKeysGt j o = true → strLt j k = true → allKeysGt j (objInsert k v o) = true
  | .nil, _, hk => by simp [objInsert, allKeysGt, hk]
  | .cons k2 v2 tl, h, hk => by
    simp only [allKeysGt, Bool.and_eq_true] at h
    by_cases he : k = k2
    · subst he; simp [objInsert, allKeysGt, hk, h.2]
    · by_cases hlt : strLt k k2 = true
      · simp [objInsert, he, hlt, allKeysGt, hk, h.1, h.2]
      · simp [objInsert, he, hlt, allKeysGt, h.1,
          allKeysGt_objInsert j k v tl h.2 hk]

theorem objSorted_objInsert (k : String) (v : JValue) : ∀ o : JObj,
    objSorted o = true → objSorted (objInsert k v o) = true
  | .nil, _ => by simp [objInsert, objSorted, allKeysGt]
  | .cons k2 v2 tl, h => by
    simp only [objSorted, Bool.and_eq_true] at h
    by_cases he : k = k2
    · subst he; simp [objInsert, objSorted, h.1, h.2]
    · by_cases hlt : strLt k k2 = true
      · simp [objInsert, he, hlt, objSorted, allKeysGt, hlt,
          allKeysGt_of_lt k k2 hlt tl h.1, h.1, h.2]
      · have hgt : strLt k2 k = true :=
          strLt_total_of_ne he (by simpa using hlt)
        simp [objInsert, he, hlt, objSorted,
          allKeysGt_objInsert k2 k v tl h.1 hgt, objSorted_objInsert k v tl h.2]

theorem canonO_objInsert (k : String) (v : JValue) (hv : canonV v = true) : ∀ o : JObj,
    canonO o = true → canonO (objInsert k v o) = true
  | .nil, _ => by simp [objInsert, canonO, hv]
  | .cons k2 v2 tl, h => by
    simp only [canonO, Bool.and_eq_true] at h
    by_cases he : k = k2
    · subst he; simp [objInsert, canonO, hv, h.2]
    · by_cases hlt : strLt k k2 = true
      · simp [objInsert, he, hlt, canonO, hv, h.1, h.2]
      · simp [objInsert, he, hlt, canonO, h.1, canonO_objInsert k v hv tl h.2]

theorem canonAux_props : ∀ o acc : JObj,
    objSorted acc = true → canonO acc = true → canonO o = true →
    objSorted (canonAux acc o) = true ∧ canonO (canonAux acc o) = true
  | .nil, acc, hs, hc, _ => ⟨hs, hc⟩
  | .cons k v tl, acc, hs, hc, h => by
    simp only [canonO, Bool.and_eq_true] at h
    exact canonAux_props tl (objInsert k v acc)
      (objSorted_objInsert k v acc hs) (canonO_objInsert k v h.1 acc hc) h.2

theorem canonFields_props (o : JObj) (h : canonO o = true) :
    objSorted (canonFields o) = true ∧ canonO (canonFields o) = true :=
  canonAux_props o .nil rfl rfl h

/-! ## Lexical round-trip lemmas: whitespace, digits, strings -/

theorem skipWs_cons_false {c : Char} (h : isWsChar c = false) (l : List Char) :
    skipWs (c :: l) = c :: l := by simp [skipWs, h]

theorem skipWs_replicate_space (n : Nat) (l : List Char) :
    skipWs (List.replicate n ' ' ++ l) = skipWs l := by
  induction n with
  | zero => simp
  | succ m ih => simpa [List.replicate_succ, skipWs, isWsChar] using ih

theorem skipWs_nlIndent (n : Nat) (l : List Char) :
    skipWs (nlIndent n ++ l) = skipWs l := by
  simp [nlIndent, skipWs, isWsChar, skipWs_replicate_space]

theorem parseVal_wsPrefix (f n : Nat) (l : List Char) :
    parseVal f (nlIndent n ++ l) = parseVal f l := by
  cases f with
  | zero => rfl
  | succ g => simp only [parseVal, skipWs_nlIndent]

def numBoundary : List Char → Bool
  | [] => true
  | c :: _ => !(isDigitChar c)

theorem digitChar_spec (d : Nat) (h : d < 10) :
    isDigitChar (digitChar d) = true ∧ (digitChar d).toNat = 48 + d := by
  have hall : ∀ x : Fin 10, isDigitChar (digitChar x.val) = true ∧
      (digitChar x.val).toNat = 48 + x.val := by decide
  exact hall ⟨d, h⟩

theorem natCharsAux_irrel (n : Nat) : ∀ (f g : Nat) (acc : List Char), n < f → n < g →
    natCharsAux f n acc = natCharsAux g n acc := by
  induction n using Nat.strongRecOn with
  | _ n ih =>
    intro f g acc hf hg
    match f, g with
    | f2 + 1, g2 + 1 =>
      simp only [natCharsAux]
      by_cases h : n < 10
      · simp [h]
      · have hdiv : n / 10 < n := Nat.div_lt_self (by omega) (by omega)
        simp only [if_neg h]
        exact ih (n / 10) hdiv f2 g2 _ (by omega) (by omega)

theorem natCharsAux_acc : ∀ (f n : Nat) (acc : List Char),
    natCharsAux f n acc = natCharsAux f n [] ++ acc
  | 0, _, _ => by simp [natCharsAux]
  | f + 1, n, acc => by
    simp only [natCharsAux]
    by_cases h : n < 10
    · simp [h]
    · simp only [if_neg h]
      rw [natCharsAux_acc f (n / 10) (digitChar (n % 10) :: acc),
        natCharsAux_acc f (n / 10) [digitChar (n % 10)]]
      simp

theorem natChars_unfold (n : Nat) :
    natChars n = (if n < 10 then [] else natChars (n / 10)) ++ [digitChar (n % 10)] := by
  by_cases h : n < 10
  · simp [natChars, natCharsAux, h, Nat.mod_eq_of_lt h]
  · have hdiv : n / 10 < n := Nat.div_lt_self (by omega) (by omega)
    conv_lhs => simp only [natChars, natCharsAux]
    rw [if_neg h, natCharsAux_acc n (n / 10) (digitChar (n % 10) :: []),
      natCharsAux_irrel (n / 10) n (n / 10 + 1) [] (by omega) (by omega), if_neg h]
    rfl

theorem natChars_digits (n : Nat) : ∀ c ∈ natChars n, isDigitChar c = true := by
  induction n using Nat.strongRecOn with
  | _ n ih =>
    rw [natChars_unfold]
    intro c hc
    rcases List.mem_append.mp hc with h | h
    · by_cases h10 : n < 10
      · simp [h10] at h
      · exact ih (n / 10) (Nat.div_lt_self (by omega) (by omega)) c (by simpa [h10] using h)
    · rw [List.mem_singleton.mp h]
      exact (digitChar_spec (n % 10) (Nat.mod_lt _ (by omega))).1

theorem natChars_head (n : Nat) :
    ∃ c t, natChars n = c :: t ∧ isDigitChar c = true := by
  match h : natChars n with
  | [] =>
    rw [natChars_unfold] at h
    simp at h
  | c :: t =>
    exact ⟨c, t, rfl, natChars_digits n c (h ▸ List.mem_cons_self ..)⟩

theorem readDigits_stop (racc : Nat) {rest : List Char} (h : numBoundary rest = true) :
    readDigits racc rest = (racc, rest) := by
  cases rest with
  | nil => rfl
  | cons c t =>
    simp only [numBoundary, Bool.not_eq_eq_eq_not, Bool.not_true] at h
    simp [readDigits, h]

theorem readDigits_run : ∀ (ds : List Char) (racc : Nat) (rest : List Char),
    (∀ c ∈ ds, isDigitChar c = true) → numBoundary rest = true →
    readDigits racc (ds ++ rest) =
      (ds.foldl (fun a c => 10 * a + (c.toNat - 48)) racc, rest)
  | [], racc, rest, _, hb => by simpa using readDigits_stop racc hb
  | c :: tl, racc, rest, hd, hb => by
    have hc : isDigitChar c = true := hd c (by simp)
    simp only [List.cons_append, readDigits, hc, if_pos, List.foldl_cons]
    exact readDigits_run tl _ rest (fun x hx => hd x (by simp [hx])) hb

theorem foldl_natChars (n : Nat) :
    (natChars n).foldl (fun a c => 10 * a + (c.toNat - 48)) 0 = n := by
  induction n using Nat.strongRecOn with
  | _ n ih =>
    rw [natChars_unfold, List.foldl_append]
    by_cases h : n < 10
    · simp [h, (digitChar_spec n (by omega)).2, Nat.mod_eq_of_lt h]
    · have hdiv : n / 10 < n := Nat.div_lt_self (by omega) (by omega)
      rw [if_neg h, ih (n / 10) hdiv]
      simp only [List.foldl_cons, List.foldl_nil,
        (digitChar_spec (n % 10) (Nat.mod_lt _ (by omega))).2]
      omega

theorem readDigits_natChars (n : Nat) (rest : List Char) (h : numBoundary rest = true) :
    readDigits 0 (natChars n ++ rest) = (n, rest) := by
  rw [readDigits_run _ 0 _ (natChars_digits n) h, foldl_natChars]

theorem hexVal_hexDigitChar (d : Nat) (h : d < 16) : hexVal (hexDigitChar d) = some d := by
  have hall : ∀ x : Fin 16, hexVal (hexDigitChar x.val) = some x.val := by decide
  exact hall ⟨d, h⟩

theorem readStr_escapeChar (c : Char) (l : List Char) :
    readStr (escapeChar c ++ l) =
      (match readStr l with
       | some (tl, rest) => some (c :: tl, rest)
       | none => none) := by
  by_cases h1 : c = '\"'
  · subst h1
    rw [show escapeChar '\"' ++ l = '\\' :: '\"' :: l from rfl, readStr.eq_def]
    simp [unescapeChar]
  by_cases h2 : c = '\\'
  · subst h2
    rw [show escapeChar '\\' ++ l = '\\' :: '\\' :: l from rfl, readStr.eq_def]
    simp [unescapeChar]
  by_cases h3 : c = '\n'
  · subst h3
    rw [show escapeChar '\n' ++ l = '\\' :: 'n' :: l from rfl, readStr.eq_def]
    simp [unescapeChar]
  by_cases h4 : c = '\r'
  · subst h4
    rw [show escapeChar '\r' ++ l = '\\' :: 'r' :: l from rfl, readStr.eq_def]
    simp [unescapeChar]
  by_cases h5 : c = '\t'
  · subst h5
    rw [show escapeChar '\t' ++ l = '\\' :: 't' :: l from rfl, readStr.eq_def]
    simp [unescapeChar]
  by_cases h6 : c.toNat < 32
  · have hhi : c.toNat / 16 < 16 := by omega
    have hlo : c.toNat % 16 < 16 := Nat.mod_lt _ (by omega)
    have harith : ((0 * 16 + 0) * 16 + c.toNat / 16) * 16 + c.toNat % 16 = c.toNat := by
      omega
    have hesc : escapeChar c ++ l =
        '\\' :: 'u' :: '0' :: '0' :: hexDigitChar (c.toNat / 16) ::
          hexDigitChar (c.toNat % 16) :: l := by
      simp [escapeChar, h1, h2, h3, h4, h5, h6]
    have hch : Char.ofNat (c.toNat / 16 * 16 + c.toNat % 16) = c := by
      have hn : c.toNat / 16 * 16 + c.toNat % 16 = c.toNat := by omega
      rw [hn, Char.ofNat_toNat]
    rw [hesc, readStr.eq_def]
    simp only [hexVal_hexDigitChar _ hhi, hexVal_hexDigitChar _ hlo,
      show hexVal '0' = some 0 from rfl]
    simp [hch]
  · have hesc : escapeChar c ++ l = c :: l := by
      simp [escapeChar, h1, h2, h3, h4, h5, h6]
    rw [hesc, readStr.eq_def]
    simp [h1, h2]

theorem readStr_escapes : ∀ (l rest : List Char),
    readStr (escapeChars l ++ '\"' :: rest) = some (l, rest)
  | [], rest => by
    rw [show escapeChars [] ++ '\"' :: rest = '\"' :: rest from rfl, readStr.eq_def]
    simp
  | c :: tl, rest => by
    rw [escapeChars, List.append_assoc, readStr_escapeChar, readStr_escapes tl rest]

theorem readStr_quote (s : String) (rest : List Char) :
    readStr (escapeChars s.data ++ '\"' :: rest) = some (s.data, rest) :=
  readStr_escapes s.data rest

theorem isDigitChar_not_special {c : Char} (h : isDigitChar c = true) :
    isWsChar c = false ∧ c ≠ ']' ∧ c ≠ '\x7d' ∧ c ≠ 'n' ∧ c ≠ 't' ∧ c ≠ 'f' ∧
    c ≠ '\"' ∧ c ≠ '-' ∧ c ≠ '[' ∧ c ≠ '\x7b' := by
  have hw : isWsChar c = false := by
    by_contra hc
    have hws : isWsChar c = true := by
      cases hx : isWsChar c
      · exact absurd hx hc
      · rfl
    simp only [isWsChar, Bool.or_eq_true, decide_eq_true_eq] at hws
    rcases hws with ((h1 | h1) | h1) | h1 <;> (subst h1; exact absurd h (by decide))
  refine ⟨hw, ?_, ?_, ?_, ?_, ?_, ?_, ?_, ?_, ?_⟩
  all_goals (intro he; subst he; exact absurd h (by decide))

/-- A character fit to open a printed value: not whitespace, and not a
closing delimiter. -/
abbrev goodHead (c : Char) : Prop := isWsChar c = false ∧ c ≠ ']' ∧ c ≠ '\x7d'

/-- Every printed value starts with a `goodHead` character. -/
theorem printVal_head (ind : Nat) (v : JValue) :
    ∃ c t, printVal ind v = c :: t ∧ goodHead c := by
  cases v with
  | jnull => exact ⟨'n', _, rfl, by decide⟩
  | jbool b =>
    cases b
    · exact ⟨'f', _, rfl, by decide⟩
    · exact ⟨'t', _, rfl, by decide⟩
  | jnum n =>
    cases n with
    | ofNat m =>
      obtain ⟨c, t, hm, hd⟩ := natChars_head m
      obtain ⟨hw, hbr, hbc, _⟩ := isDigitChar_not_special hd
      exact ⟨c, t, by simp [printVal, intChars, hm], hw, hbr, hbc⟩
    | negSucc m => exact ⟨'-', _, rfl, by decide⟩
  | jstr s => exact ⟨'\"', _, rfl, by decide⟩
  | jarr a =>
    cases a
    · exact ⟨'[', _, rfl, by decide⟩
    · exact ⟨'[', _, rfl, by decide⟩
  | jobj o =>
    cases o
    · exact ⟨'\x7b', _, rfl, by decide⟩
    · exact ⟨'\x7b', _, rfl, by decide⟩

theorem skipWs_printVal (ind : Nat) (v : JValue) (x : List Char) :
    skipWs (printVal ind v ++ x) = printVal ind v ++ x := by
  obtain ⟨c, t, hp, hw, _, _⟩ := printVal_head ind v
  rw [hp, List.cons_append, skipWs_cons_false hw]

theorem skipWs_cons_space (l : List Char) : skipWs (' ' :: l) = skipWs l := by
  simp [skipWs, isWsChar]

theorem parseVal_spacePrefix (f : Nat) (l : List Char) :
    parseVal f (' ' :: l) = parseVal f l := by
  cases f with
  | zero => rfl
  | succ g => simp only [parseVal, skipWs_cons_space]

theorem numBoundary_cons {c : Char} (h : isDigitChar c = false) (t : List Char) :
    numBoundary (c :: t) = true := by simp [numBoundary, h]

theorem numBoundary_nlIndent (n : Nat) (l : List Char) :
    numBoundary (nlIndent n ++ l) = true := by
  simp [nlIndent, numBoundary, isDigitChar]

theorem nlIndent_length (n : Nat) : (nlIndent n).length = n + 1 := by simp [nlIndent]

theorem strMkData (s : String) : String.mk s.data = s := rfl

theorem negCastSucc (m : Nat) : -((m + 1 : Nat) : Int) = Int.negSucc m := by
  rw [Int.negSucc_eq]
  push_cast
  ring

theorem parseVal_openBracket (f : Nat) (x : List Char) :
    parseVal (f + 1) ('[' :: x) =
      (match skipWs x with
       | [] => none
       | c2 :: cs2 =>
         if c2 = ']' then some (.jarr .nil, cs2)
         else
           match parseVal f (c2 :: cs2) with
           | some (v, r1) =>
             match parseArrTail f r1 with
             | some (tl, r2) => some (.jarr (.cons v tl), r2)
             | none => none
           | none => none) := by
  simp only [parseVal]
  rw [skipWs_cons_false (by decide)]
  rfl

theorem parseVal_openBrace (f : Nat) (x : List Char) :
    parseVal (f + 1) ('\x7b' :: x) =
      (match skipWs x with
       | [] => none
       | c2 :: cs2 =>
         if c2 = '\x7d' then some (.jobj .nil, cs2)
         else if c2 = '\"' then
           match readStr cs2 with
           | some (kchars, r1) =>
             match skipWs r1 with
             | [] => none
             | c3 :: r2 =>
               if c3 = ':' then
                 match parseVal f r2 with
                 | some (v, r3) =>
                   match parseObjTail f r3 with
                   | some (tl, r4) =>
                     some (.jobj (canonFields (.cons (String.mk kchars) v tl)), r4)
                   | none => none
                 | none => none
               else none
           | none => none
         else none) := by
  simp only [parseVal]
  rw [skipWs_cons_false (by decide)]
  rfl

theorem parseArrTail_comma (f : Nat) (x : List Char) :
    parseArrTail (f + 1) (',' :: x) =
      (match parseVal f x with
       | some (v, r1) =>
         match parseArrTail f r1 with
         | some (tl, r2) => some (JArr.cons v tl, r2)
         | none => none
       | none => none) := by
  simp only [parseArrTail]
  rw [skipWs_cons_false (by decide)]
  rfl

theorem parseObjTail_comma (f : Nat) (x : List Char) :
    parseObjTail (f + 1) (',' :: x) =
      (match skipWs x with
       | [] => none
       | c2 :: cs2 =>
         if c2 = '\"' then
           match readStr cs2 with
           | some (kchars, r1) =>
             match skipWs r1 with
             | [] => none
             | c3 :: r2 =>
               if c3 = ':' then
                 match parseVal f r2 with
                 | some (v, r3) =>
                   match parseObjTail f r3 with
                   | some (tl, r4) => some (JObj.cons (String.mk kchars) v tl, r4)
                   | none => none
                 | none => none
               else none
           | none => none
         else none) := by
  simp only [parseObjTail]
  rw [skipWs_cons_false (by decide)]
  rfl

mutual

theorem rtVal : ∀ (v : JValue) (ind fuel : Nat) (rest : List Char),
    canonV v = true → (printVal ind v).length < fuel → numBoundary rest = true →
    parseVal fuel (printVal ind v ++ rest) = some (v, rest)
  | .jnull, ind, fuel, rest, _, hf, _ => by
    match fuel, hf with
    | f + 1, _ => simp [printVal, parseVal, skipWs, isWsChar]
  | .jbool true, ind, fuel, rest, _, hf, _ => by
    match fuel, hf with
    | f + 1, _ => simp [printVal, parseVal, skipWs, isWsChar]
  | .jbool false, ind, fuel, rest, _, hf, _ => by
    match fuel, hf with
    | f + 1, _ => simp [printVal, parseVal, skipWs, isWsChar]
  | .jnum (.ofNat m), ind, fuel, rest, _, hf, hb => by
    match fuel, hf with
    | f + 1, _ =>
      obtain ⟨c, t, hm, hd⟩ := natChars_head m
      obtain ⟨hw, _, _, hn, ht, hf2, hq, hmi, _, _⟩ := isDigitChar_not_special hd
      have harg : printVal ind (.jnum (.ofNat m)) ++ rest = c :: (t ++ rest) := by
        simp [printVal, intChars, hm]
      rw [harg]
      simp only [parseVal, skipWs_cons_false hw]
      have hrd : readDigits 0 (c :: (t ++ rest)) = (m, rest) := by
        have := readDigits_natChars m rest hb
        rwa [hm, List.cons_append] at this
      simp [hn, ht, hf2, hq, hmi, hd, hrd]
  | .jnum (.negSucc m), ind, fuel, rest, _, hf, hb => by
    match fuel, hf with
    | f + 1, _ =>
      obtain ⟨c, t, hm, hd⟩ := natChars_head (m + 1)
      have harg : printVal ind (.jnum (.negSucc m)) ++ rest = '-' :: (c :: (t ++ rest)) := by
        simp [printVal, intChars, hm]
      rw [harg]
      have hrd : readDigits 0 (c :: (t ++ rest)) = (m + 1, rest) := by
        have := readDigits_natChars (m + 1) rest hb
        rwa [hm, List.cons_append] at this
      simp only [parseVal, skipWs, isWsChar]
      simp [hd, hrd]
      rw [Int.negSucc_eq]
      ring
  | .jstr s, ind, fuel, rest, _, hf, _ => by
    match fuel, hf with
    | f + 1, _ =>
      have harg : printVal ind (.jstr s) ++ rest =
          '\"' :: (escapeChars s.data ++ '\"' :: rest) := by
        simp [printVal, quoteChars]
      rw [harg]
      simp only [parseVal, skipWs, isWsChar]
      simp [readStr_quote, strMkData]
  | .jarr .nil, ind, fuel, rest, _, hf, _ => by
    match fuel, hf with
    | f + 1, _ =>
      rw [show printVal ind (.jarr .nil) ++ rest = '[' :: (']' :: rest) from rfl,
        parseVal_openBracket]
      simp [skipWs, isWsChar]
  | .jarr (.cons v tl), ind, fuel, rest, hc, hf, _ => by
    match fuel, hf with
    | f + 1, hf =>
      have hcv : canonV v = true ∧ canonA tl = true := by
        simpa [canonV, canonA] using hc
      have hlen : (printVal ind (.jarr (.cons v tl))).length =
          1 + (nlIndent (ind + 2)).length + (printVal (ind + 2) v).length +
            (printArrTail (ind + 2) tl).length + (nlIndent ind).length + 1 := by
        simp [printVal]; omega
      have hfv : (printVal (ind + 2) v).length < f := by
        rw [hlen] at hf; simp [nlIndent_length] at hf; omega
      have hft : (printArrTail (ind + 2) tl).length + 1 < f := by
        rw [hlen] at hf; simp [nlIndent_length] at hf; omega
      have harg : printVal ind (.jarr (.cons v tl)) ++ rest =
          '[' :: (nlIndent (ind + 2) ++ (printVal (ind + 2) v ++
            (printArrTail (ind + 2) tl ++ (nlIndent ind ++ (']' :: rest))))) := by
        simp [printVal]
      obtain ⟨c2, t2, hp, hw2, hbr2, _⟩ := printVal_head (ind + 2) v
      have hskip : skipWs (nlIndent (ind + 2) ++ (printVal (ind + 2) v ++
          (printArrTail (ind + 2) tl ++ (nlIndent ind ++ (']' :: rest))))) =
          c2 :: (t2 ++ (printArrTail (ind + 2) tl ++ (nlIndent ind ++ (']' :: rest)))) := by
        rw [skipWs_nlIndent, hp, List.cons_append, skipWs_cons_false hw2]
      have hcons : c2 :: (t2 ++ (printArrTail (ind + 2) tl ++ (nlIndent ind ++ (']' :: rest)))) =
          printVal (ind + 2) v ++
            (printArrTail (ind + 2) tl ++ (nlIndent ind ++ (']' :: rest))) := by
        rw [hp, List.cons_append]
      have hbnd : numBoundary (printArrTail (ind + 2) tl ++ (nlIndent ind ++ (']' :: rest))) =
          true := by
        cases tl with
        | nil => simpa [printArrTail] using numBoundary_nlIndent ind (']' :: rest)
        | cons w wtl => exact numBoundary_cons (by decide) _
      have hv := rtVal v (ind + 2) f
        (printArrTail (ind + 2) tl ++ (nlIndent ind ++ (']' :: rest))) hcv.1 hfv hbnd
      have htl := rtArr tl (ind + 2) ind f rest hcv.2 hft
      have hv2 : parseVal f
          (c2 :: (t2 ++ (printArrTail (ind + 2) tl ++ (nlIndent ind ++ (']' :: rest))))) =
          some (v, printArrTail (ind + 2) tl ++ (nlIndent ind ++ (']' :: rest))) := by
        rw [hcons]; exact hv
      rw [harg, parseVal_openBracket]
      simp only [hskip, if_neg hbr2, hv2, htl]
  | .jobj .nil, ind, fuel, rest, _, hf, _ => by
    match fuel, hf with
    | f + 1, _ =>
      rw [show printVal ind (.jobj .nil) ++ rest = '\x7b' :: ('\x7d' :: rest) from rfl,
        parseVal_openBrace]
      simp [skipWs, isWsChar]
  | .jobj (.cons k v tl), ind, fuel, rest, hc, hf, _ => by
    match fuel, hf with
    | f + 1, hf =>
      have hcv : objSorted (.cons k v tl) = true ∧ canonV v = true ∧ canonO tl = true := by
        simpa [canonV, canonO, and_assoc] using hc
      have hlen : (printVal ind (.jobj (.cons k v tl))).length =
          1 + (nlIndent (ind + 2)).length + (quoteChars k).length + 2 +
            (printVal (ind + 2) v).length + (printObjTail (ind + 2) tl).length +
            (nlIndent ind).length + 1 := by
        simp [printVal]; omega
      have hfv : (printVal (ind + 2) v).length < f := by
        rw [hlen] at hf; simp [nlIndent_length] at hf; omega
      have hft : (printObjTail (ind + 2) tl).length + 1 < f := by
        rw [hlen] at hf; simp [nlIndent_length] at hf; omega
      have harg : printVal ind (.jobj (.cons k v tl)) ++ rest =
          '\x7b' :: (nlIndent (ind + 2) ++ ('\"' :: (escapeChars k.data ++ ('\"' :: (':' :: (' ' ::
            (printVal (ind + 2) v ++
              (printObjTail (ind + 2) tl ++ (nlIndent ind ++ ('\x7d' :: rest)))))))))) := by
        simp [printVal, quoteChars]
      have hbnd : numBoundary (printObjTail (ind + 2) tl ++ (nlIndent ind ++ ('\x7d' :: rest))) =
          true := by
        cases tl with
        | nil => simpa [printObjTail] using numBoundary_nlIndent ind ('\x7d' :: rest)
        | cons k2 w wtl => exact numBoundary_cons (by decide) _
      have hv := rtVal v (ind + 2) f
        (printObjTail (ind + 2) tl ++ (nlIndent ind ++ ('\x7d' :: rest))) hcv.2.1 hfv hbnd
      have htl := rtObj tl (ind + 2) ind f rest hcv.2.2 hft
      have hread := readStr_escapes k.data
        (':' :: (' ' :: (printVal (ind + 2) v ++
          (printObjTail (ind + 2) tl ++ (nlIndent ind ++ ('\x7d' :: rest))))))
      have hskip : skipWs (nlIndent (ind + 2) ++ ('\"' :: (escapeChars k.data ++ ('\"' :: (':' :: (' ' ::
          (printVal (ind + 2) v ++
            (printObjTail (ind + 2) tl ++ (nlIndent ind ++ ('\x7d' :: rest)))))))))) =
          '\"' :: (escapeChars k.data ++ ('\"' :: (':' :: (' ' ::
            (printVal (ind + 2) v ++
              (printObjTail (ind + 2) tl ++ (nlIndent ind ++ ('\x7d' :: rest)))))))) := by
        rw [skipWs_nlIndent, skipWs_cons_false (by decide)]
      have hsorted : canonFields (.cons (String.mk k.data) v tl) = .cons k v tl := by
        rw [strMkData]
        exact canonFields_of_sorted _ hcv.1
      have hcolon : skipWs (':' :: (' ' :: (printVal (ind + 2) v ++
          (printObjTail (ind + 2) tl ++ (nlIndent ind ++ ('\x7d' :: rest)))))) =
          ':' :: (' ' :: (printVal (ind + 2) v ++
            (printObjTail (ind + 2) tl ++ (nlIndent ind ++ ('\x7d' :: rest))))) :=
        skipWs_cons_false (by decide) _
      rw [harg, parseVal_openBrace]
      simp only [hskip, reduceIte, hread, hcolon, parseVal_spacePrefix, hv, htl, hsorted]
      rw [if_neg (by decide)]

theorem rtArr : ∀ (a : JArr) (ind ind2 fuel : Nat) (rest : List Char),
    canonA a = true → (printArrTail ind a).length + 1 < fuel →
    parseArrTail fuel (printArrTail ind a ++ (nlIndent ind2 ++ (']' :: rest))) =
      some (a, rest)
  | .nil, ind, ind2, fuel, rest, _, hf => by
    match fuel, hf with
    | f + 1, _ =>
      simp only [printArrTail, List.nil_append, parseArrTail, skipWs_nlIndent]
      simp [skipWs, isWsChar]
  | .cons v tl, ind, ind2, fuel, rest, hc, hf => by
    match fuel, hf with
    | f + 1, hf =>
      have hcv : canonV v = true ∧ canonA tl = true := by
        simpa [canonA] using hc
      have hlen : (printArrTail ind (.cons v tl)).length =
          1 + (nlIndent ind).length + (printVal ind v).length +
            (printArrTail ind tl).length := by
        simp [printArrTail]; omega
      have hfv : (printVal ind v).length < f := by
        rw [hlen] at hf; simp [nlIndent_length] at hf; omega
      have hft : (printArrTail ind tl).length + 1 < f := by
        rw [hlen] at hf; simp [nlIndent_length] at hf; omega
      have hbnd : numBoundary (printArrTail ind tl ++ (nlIndent ind2 ++ (']' :: rest))) =
          true := by
        cases tl with
        | nil => simpa [printArrTail] using numBoundary_nlIndent ind2 (']' :: rest)
        | cons w wtl => exact numBoundary_cons (by decide) _
      have hv := rtVal v ind f
        (printArrTail ind tl ++ (nlIndent ind2 ++ (']' :: rest))) hcv.1 hfv hbnd
      have htl := rtArr tl ind ind2 f rest hcv.2 hft
      have harg : printArrTail ind (.cons v tl) ++ (nlIndent ind2 ++ (']' :: rest)) =
          ',' :: (nlIndent ind ++ (printVal ind v ++
            (printArrTail ind tl ++ (nlIndent ind2 ++ (']' :: rest))))) := by
        simp [printArrTail]
      rw [harg, parseArrTail_comma]
      simp only [parseVal_wsPrefix, hv, htl]

theorem rtObj : ∀ (o : JObj) (ind ind2 fuel : Nat) (rest : List Char),
    canonO o = true → (printObjTail ind o).length + 1 < fuel →
    parseObjTail fuel (printObjTail ind o ++ (nlIndent ind2 ++ ('\x7d' :: rest))) =
      some (o, rest)
  | .nil, ind, ind2, fuel, rest, _, hf => by
    match fuel, hf with
    | f + 1, _ =>
      simp only [printObjTail, List.nil_append, parseObjTail, skipWs_nlIndent]
      simp [skipWs, isWsChar]
  | .cons k v tl, ind, ind2, fuel, rest, hc, hf => by
    match fuel, hf with
    | f + 1, hf =>
      have hcv : canonV v = true ∧ canonO tl = true := by
        simpa [canonO] using hc
      have hlen : (printObjTail ind (.cons k v tl)).length =
          1 + (nlIndent ind).length + (quoteChars k).length + 2 +
            (printVal ind v).length + (printObjTail ind tl).length := by
        simp [printObjTail]; omega
      have hfv : (printVal ind v).length < f := by
        rw [hlen] at hf; simp [nlIndent_length] at hf; omega
      have hft : (printObjTail ind tl).length + 1 < f := by
        rw [hlen] at hf; simp [nlIndent_length] at hf; omega
      have hbnd : numBoundary (printObjTail ind tl ++ (nlIndent ind2 ++ ('\x7d' :: rest))) =
          true := by
        cases tl with
        | nil => simpa [printObjTail] using numBoundary_nlIndent ind2 ('\x7d' :: rest)
        | cons k2 w wtl => exact numBoundary_cons (by decide) _
      have hv := rtVal v ind f
        (printObjTail ind tl ++ (nlIndent ind2 ++ ('\x7d' :: rest))) hcv.1 hfv hbnd
      have htl := rtObj tl ind ind2 f rest hcv.2 hft
      have hread := readStr_escapes k.data
        (':' :: (' ' :: (printVal ind v ++
          (printObjTail ind tl ++ (nlIndent ind2 ++ ('\x7d' :: rest))))))
      have harg : printObjTail ind (.cons k v tl) ++ (nlIndent ind2 ++ ('\x7d' :: rest)) =
          ',' :: (nlIndent ind ++ ('\"' :: (escapeChars k.data ++ ('\"' :: (':' :: (' ' ::
            (printVal ind v ++
              (printObjTail ind tl ++ (nlIndent ind2 ++ ('\x7d' :: rest)))))))))) := by
        simp [printObjTail, quoteChars]
      have hskip : skipWs (nlIndent ind ++ ('\"' :: (escapeChars k.data ++ ('\"' :: (':' :: (' ' ::
          (printVal ind v ++
            (printObjTail ind tl ++ (nlIndent ind2 ++ ('\x7d' :: rest)))))))))) =
          '\"' :: (escapeChars k.data ++ ('\"' :: (':' :: (' ' ::
            (printVal ind v ++
              (printObjTail ind tl ++ (nlIndent ind2 ++ ('\x7d' :: rest)))))))) := by
        rw [skipWs_nlIndent, skipWs_cons_false (by decide)]
      have hcolon : skipWs (':' :: (' ' :: (printVal ind v ++
          (printObjTail ind tl ++ (nlIndent ind2 ++ ('\x7d' :: rest)))))) =
          ':' :: (' ' :: (printVal ind v ++
            (printObjTail ind tl ++ (nlIndent ind2 ++ ('\x7d' :: rest))))) :=
        skipWs_cons_false (by decide) _
      rw [harg, parseObjTail_comma]
      simp only [hskip, reduceIte, hread, hcolon, parseVal_spacePrefix, hv, htl, strMkData]

end

theorem parseVal_succ (f : Nat) (input : List Char) :
    parseVal (f + 1) input =
      (match skipWs input with
       | [] => none
       | c :: cs =>
         if c = 'n' then
           match cs with
           | 'u' :: 'l' :: 'l' :: rest => some (.jnull, rest)
           | _ => none
         else if c = 't' then
           match cs with
           | 'r' :: 'u' :: 'e' :: rest => some (.jbool true, rest)
           | _ => none
         else if c = 'f' then
           match cs with
           | 'a' :: 'l' :: 's' :: 'e' :: rest => some (.jbool false, rest)
           | _ => none
         else if c = '\"' then
           match readStr cs with
           | some (content, rest) => some (.jstr (String.mk content), rest)
           | none => none
         else if c = '-' then
           match cs with
           | d :: ds =>
             if isDigitChar d then
               let p := readDigits 0 (d :: ds)
               some (.jnum (-(p.1 : Int)), p.2)
             else none
           | [] => none
         else if isDigitChar c then
           let p := readDigits 0 (c :: cs)
           some (.jnum (p.1 : Int), p.2)
         else if c = '[' then
           match skipWs cs with
           | [] => none
           | c2 :: cs2 =>
             if c2 = ']' then some (.jarr .nil, cs2)
             else
               match parseVal f (c2 :: cs2) with
               | some (v, r1) =>
                 match parseArrTail f r1 with
                 | some (tl, r2) => some (.jarr (.cons v tl), r2)
                 | none => none
               | none => none
         else if c = '\x7b' then
           match skipWs cs with
           | [] => none
           | c2 :: cs2 =>
             if c2 = '\x7d' then some (.jobj .nil, cs2)
             else if c2 = '\"' then
               match readStr cs2 with
               | some (kchars, r1) =>
                 match skipWs r1 with
                 | [] => none
                 | c3 :: r2 =>
                   if c3 = ':' then
                     match parseVal f r2 with
                     | some (v, r3) =>
                       match parseObjTail f r3 with
                       | some (tl, r4) =>
                         some (.jobj (canonFields (.cons (String.mk kchars) v tl)), r4)
                       | none => none
                     | none => none
                   else none
               | none => none
             else none
         else none) := by
  rw [parseVal.eq_def]

theorem parseArrTail_succ (f : Nat) (input : List Char) :
    parseArrTail (f + 1) input =
      (match skipWs input with
       | [] => none
       | c :: cs =>
         if c = ',' then
           match parseVal f cs with
           | some (v, r1) =>
             match parseArrTail f r1 with
             | some (tl, r2) => some (JArr.cons v tl, r2)
             | none => none
           | none => none
         else if c = ']' then some (.nil, cs)
         else none) := by
  rw [parseArrTail.eq_def]

theorem parseObjTail_succ (f : Nat) (input : List Char) :
    parseObjTail (f + 1) input =
      (match skipWs input with
       | [] => none
       | c :: cs =>
         if c = ',' then
           match skipWs cs with
           | [] => none
           | c2 :: cs2 =>
             if c2 = '\"' then
               match readStr cs2 with
               | some (kchars, r1) =>
                 match skipWs r1 with
                 | [] => none
                 | c3 :: r2 =>
                   if c3 = ':' then
                     match parseVal f r2 with
                     | some (v, r3) =>
                       match parseObjTail f r3 with
                       | some (tl, r4) => some (JObj.cons (String.mk kchars) v tl, r4)
                       | none => none
                     | none => none
                   else none
               | none => none
             else none
         else if c = '\x7d' then some (.nil, cs)
         else none) := by
  rw [parseObjTail.eq_def]

mutual

theorem parseVal_canon : ∀ (f : Nat) (input : List Char) (v : JValue) (r : List Char),
    parseVal f input = some (v, r) → canonV v = true
  | 0, input, v, r, h => by simp [parseVal] at h
  | f + 1, input, v, r, h => by
    rw [parseVal_succ] at h
    split at h
    · contradiction
    · rename_i c cs heq
      by_cases h1 : c = 'n'
      · rw [if_pos h1] at h
        split at h
        · simp only [Option.some.injEq, Prod.mk.injEq] at h
          obtain ⟨rfl, rfl⟩ := h
          rfl
        · contradiction
      rw [if_neg h1] at h
      by_cases h2 : c = 't'
      · rw [if_pos h2] at h
        split at h
        · simp only [Option.some.injEq, Prod.mk.injEq] at h
          obtain ⟨rfl, rfl⟩ := h
          rfl
        · contradiction
      rw [if_neg h2] at h
      by_cases h3 : c = 'f'
      · rw [if_pos h3] at h
        split at h
        · simp only [Option.some.injEq, Prod.mk.injEq] at h
          obtain ⟨rfl, rfl⟩ := h
          rfl
        · contradiction
      rw [if_neg h3] at h
      by_cases h4 : c = '\"'
      · rw [if_pos h4] at h
        split at h
        · simp only [Option.some.injEq, Prod.mk.injEq] at h
          obtain ⟨rfl, rfl⟩ := h
          rfl
        · contradiction
      rw [if_neg h4] at h
      by_cases h5 : c = '-'
      · rw [if_pos h5] at h
        split at h
        · rename_i d ds
          by_cases h6 : isDigitChar d = true
          · rw [if_pos h6] at h
            simp only [Option.some.injEq, Prod.mk.injEq] at h
            obtain ⟨rfl, rfl⟩ := h
            rfl
          · rw [if_neg h6] at h
            contradiction
        · contradiction
      rw [if_neg h5] at h
      by_cases h6 : isDigitChar c = true
      · rw [if_pos h6] at h
        simp only [Option.some.injEq, Prod.mk.injEq] at h
        obtain ⟨rfl, rfl⟩ := h
        rfl
      rw [if_neg h6] at h
      by_cases h7 : c = '['
      · rw [if_pos h7] at h
        split at h
        · contradiction
        · rename_i c2 cs2 heq2
          by_cases h8 : c2 = ']'
          · rw [if_pos h8] at h
            simp only [Option.some.injEq, Prod.mk.injEq] at h
            obtain ⟨rfl, rfl⟩ := h
            rfl
          · rw [if_neg h8] at h
            split at h
            · rename_i v1 r1 hpv
              split at h
              · rename_i tl1 r2 hpa
                simp only [Option.some.injEq, Prod.mk.injEq] at h
                obtain ⟨rfl, rfl⟩ := h
                simp only [canonV, canonA, Bool.and_eq_true]
                exact ⟨parseVal_canon f _ _ _ hpv, parseArrTail_canon f _ _ _ hpa⟩
              · contradiction
            · contradiction
      rw [if_neg h7] at h
      by_cases h9 : c = '\x7b'
      · rw [if_pos h9] at h
        split at h
        · contradiction
        · rename_i c2 cs2 heq2
          by_cases h10 : c2 = '\x7d'
          · rw [if_pos h10] at h
            simp only [Option.some.injEq, Prod.mk.injEq] at h
            obtain ⟨rfl, rfl⟩ := h
            rfl
          rw [if_neg h10] at h
          by_cases h11 : c2 = '\"'
          · rw [if_pos h11] at h
            split at h
            · rename_i kchars r1 hread
              split at h
              · contradiction
              · rename_i c3 r2 heq3
                by_cases h12 : c3 = ':'
                · rw [if_pos h12] at h
                  split at h
                  · rename_i v1 r3 hpv
                    split at h
                    · rename_i tl1 r4 hpo
                      simp only [Option.some.injEq, Prod.mk.injEq] at h
                      obtain ⟨rfl, rfl⟩ := h
                      have hc1 := parseVal_canon f _ _ _ hpv
                      have hc2 := parseObjTail_canon f _ _ _ hpo
                      have hp := canonFields_props (JObj.cons (String.mk kchars) v1 tl1)
                        (by simp only [canonO, Bool.and_eq_true]; exact ⟨hc1, hc2⟩)
                      simp only [canonV, Bool.and_eq_true]
                      exact ⟨hp.1, hp.2⟩
                    · contradiction
                  · contradiction
                · rw [if_neg h12] at h
                  contradiction
            · contradiction
          rw [if_neg h11] at h
          contradiction
      rw [if_neg h9] at h
      contradiction

theorem parseArrTail_canon : ∀ (f : Nat) (input : List Char) (a : JArr) (r : List Char),
    parseArrTail f input = some (a, r) → canonA a = true
  | 0, input, a, r, h => by simp [parseArrTail] at h
  | f + 1, input, a, r, h => by
    rw [parseArrTail_succ] at h
    split at h
    · contradiction
    · rename_i c cs heq
      by_cases h1 : c = ','
      · rw [if_pos h1] at h
        split at h
        · rename_i v1 r1 hpv
          split at h
          · rename_i tl1 r2 hpa
            simp only [Option.some.injEq, Prod.mk.injEq] at h
            obtain ⟨rfl, rfl⟩ := h
            simp only [canonA, Bool.and_eq_true]
            exact ⟨parseVal_canon f _ _ _ hpv, parseArrTail_canon f _ _ _ hpa⟩
          · contradiction
        · contradiction
      rw [if_neg h1] at h
      by_cases h2 : c = ']'
      · rw [if_pos h2] at h
        simp only [Option.some.injEq, Prod.mk.injEq] at h
        obtain ⟨rfl, rfl⟩ := h
        rfl
      rw [if_neg h2] at h
      contradiction

theorem parseObjTail_canon : ∀ (f : Nat) (input : List Char) (o : JObj) (r : List Char),
    parseObjTail f input = some (o, r) → canonO o = true
  | 0, input, o, r, h => by simp [parseObjTail] at h
  | f + 1, input, o, r, h => by
    rw [parseObjTail_succ] at h
    split at h
    · contradiction
    · rename_i c cs heq
      by_cases h1 : c = ','
      · rw [if_pos h1] at h
        split at h
        · contradiction
        · rename_i c2 cs2 heq2
          by_cases h2 : c2 = '\"'
          · rw [if_pos h2] at h
            split at h
            · rename_i kchars r1 hread
              split at h
              · contradiction
              · rename_i c3 r2 heq3
                by_cases h3 : c3 = ':'
                · rw [if_pos h3] at h
                  split at h
                  · rename_i v1 r3 hpv
                    split at h
                    · rename_i tl1 r4 hpo
                      simp only [Option.some.injEq, Prod.mk.injEq] at h
                      obtain ⟨rfl, rfl⟩ := h
                      simp only [canonO, Bool.and_eq_true]
                      exact ⟨parseVal_canon f _ _ _ hpv, parseObjTail_canon f _ _ _ hpo⟩
                    · contradiction
                  · contradiction
                · rw [if_neg h3] at h
                  contradiction
            · contradiction
          rw [if_neg h2] at h
          contradiction
      rw [if_neg h1] at h
      by_cases h2 : c = '\x7d'
      · rw [if_pos h2] at h
        simp only [Option.some.injEq, Prod.mk.injEq] at h
        obtain ⟨rfl, rfl⟩ := h
        rfl
      rw [if_neg h2] at h
      contradiction

end

/-- Everything `parseJSON` accepts is canonical: objects key-sorted and
duplicate-free at every nesting level. -/
theorem parseJSON_canon (s : String) (v : JValue) (h : parseJSON s = some v) :
    canonV v = true := by
  simp only [parseJSON] at h
  cases hp : parseVal (s.data.length + 1) s.data with
  | none => rw [hp] at h; contradiction
  | some p =>
    obtain ⟨v1, rest⟩ := p
    rw [hp] at h
    have h2 : (if (skipWs rest).isEmpty = true then some v1 else none) = some v := h
    by_cases he : (skipWs rest).isEmpty = true
    · rw [if_pos he] at h2
      simp only [Option.some.injEq] at h2
      subst h2
      exact parseVal_canon _ _ _ _ hp
    · rw [if_neg he] at h2
      contradiction

/-- The codec round-trip: re-parsing a `MarshalIndent` rendering of a
canonical value recovers it exactly. -/
theorem parseJSON_marshalIndent (v : JValue) (hc : canonV v = true) :
    parseJSON (marshalIndent v) = some v := by
  have hrt := rtVal v 0 ((printVal 0 v).length + 1) [] hc (by omega) rfl
  rw [List.append_nil] at hrt
  have hdef : parseJSON (marshalIndent v) =
      (match parseVal ((printVal 0 v).length + 1) (printVal 0 v) with
       | some (w, rest) => if (skipWs rest).isEmpty = true then some w else none
       | none => none) := rfl
  rw [hdef, hrt]
  simp [skipWs]

/-- C9: on a successful lookup whose payload is valid JSON (an object,
as `json.Unmarshal` into a map requires), the tool result returned for
model context is the decoded payload re-serialized in indented form by
`MarshalIndent`: it is itself valid JSON text and parses back to
exactly the same decoded value as the raw payload — a parse/print
round-trip in which only member order and duplicate keys (the data the
decoder's map already forgets) are normalized. -/
theorem claim_tool_result_roundtrip (env : Env) (pkg eco : String)
    (httpr : HttpResp) (body : String) (o : JObj)
    (hreq : env.newRequestErr = none) (hdo : env.doResult = .ok httpr)
    (hbody : httpr.bodyResult = .ok body)
    (hv : parseJSON body = some (.jobj o)) :
    (trustyReport env pkg eco).1 = .ok (marshalIndent (.jobj o)) ∧
    parseJSON (marshalIndent (.jobj o)) = some (.jobj o) := by
  have hum : unmarshalMap body = some o := by simp [unmarshalMap, hv]
  refine ⟨?_, parseJSON_marshalIndent _ (parseJSON_canon _ _ hv)⟩
  simp [trustyReport, hreq, hdo, hbody, hum]

theorem claim_tool_result_roundtrip_witness :
    (trustyReport envBase "left-pad" "npm").1 =
      .ok (marshalIndent (.jobj (.cons "score" (.jnum 9) .nil))) ∧
    parseJSON (marshalIndent (.jobj (.cons "score" (.jnum 9) .nil))) =
      some (.jobj (.cons "score" (.jnum 9) .nil)) :=
  claim_tool_result_roundtrip envBase "left-pad" "npm"
    { statusCode := 200, bodyResult := .ok "\x7b\"score\": 9\x7d" }
    "\x7b\"score\": 9\x7d" (.cons "score" (.jnum 9) .nil)
    rfl rfl rfl (by decide)
